import Mathlib

/-!
# SmartHomeCLI: a shallow embedding of `SmartHomeCLI.cpp`

Modelling conventions.

* `std::string` is a Lean `String`; `operator<` on strings (the key order of
  `std::map`) is the lexicographic order on characters, which is Lean's `<`.
* Objects created by `std::make_shared` live in a heap, a `List Device`; a
  `std::shared_ptr<IDevice>` is `Option Nat`: `none` is `nullptr`, `some p` is the
  object in cell `p`.  Two pointers are the same object iff the indices are equal.
* `std::cout` is the list of writes made so far, one entry per output statement
  (`std::cout << a << b << "\n";` is the single entry `a ++ b ++ "\n"`); the
  console text is the concatenation of the entries.
* An input stream (`std::cin`, `std::stringstream`) is its unread characters and
  one flag `good` (no `eofbit`, no `failbit`).
-/

namespace SmartHome

/-! ## Colours -/

namespace Color

def RESET : String := "\x1b[0m"
def RED : String := "\x1b[31m"
def GREEN : String := "\x1b[32m"
def YELLOW : String := "\x1b[33m"
def CYAN : String := "\x1b[36m"
def BOLD : String := "\x1b[1m"

end Color

/-! ## Devices -/

/-- The dynamic class of a device object: `Light` or `AirConditioner`. -/
inductive DeviceClass where
  | Light
  | AirConditioner
  deriving DecidableEq, Repr

/-- A device object: the fields of `BaseDevice` and the class it was built as. -/
structure Device where
  cls : DeviceClass
  name : String
  isOn : Bool
  deriving DecidableEq, Repr

/-- Constructor `BaseDevice(n) : name(n), isOn(false)`, reached through `Light(n)`
and `AirConditioner(n)`. -/
def Device.new (cls : DeviceClass) (n : String) : Device :=
  { cls := cls, name := n, isOn := false }

/-- `BaseDevice::getName`. -/
def Device.getName (d : Device) : String := d.name

/-- `BaseDevice::getStatus`. -/
def Device.getStatus (d : Device) : String :=
  d.name ++ "\t: " ++
    (if d.isOn then Color.GREEN ++ "[ON]" ++ Color.RESET else Color.RED ++ "[OFF]" ++ Color.RESET)

/-- `Light::turnOn` / `AirConditioner::turnOn`: the new object and the text written. -/
def Device.turnOn (d : Device) : Device × String :=
  match d.cls with
  | .Light =>
    ({ d with isOn := true },
      Color.YELLOW ++ ">>> Лампа (" ++ d.name ++ ") світить яскраво." ++ Color.RESET ++ "\n")
  | .AirConditioner =>
    ({ d with isOn := true },
      Color.CYAN ++ ">>> Кондиціонер (" ++ d.name ++ ") охолоджує повітря." ++ Color.RESET ++ "\n")

/-- `Light::turnOff` / `AirConditioner::turnOff`: the new object and the text written. -/
def Device.turnOff (d : Device) : Device × String :=
  match d.cls with
  | .Light => ({ d with isOn := false }, ">>> Лампа (" ++ d.name ++ ") згасла.\n")
  | .AirConditioner => ({ d with isOn := false }, ">>> Кондиціонер (" ++ d.name ++ ") вимкнено.\n")

/-- The objects behind the `shared_ptr<IDevice>` values of the program. -/
abbrev Heap := List Device

/-- Call `dev->turnOn()` through a pointer: the cell is updated, the message written. -/
def Heap.turnOn (h : Heap) (cout : List String) (dev : Nat) : Heap × List String :=
  match h[dev]? with
  | none => (h, cout)
  | some d => (h.set dev d.turnOn.1, cout ++ [d.turnOn.2])

/-- Call `dev->turnOff()` through a pointer. -/
def Heap.turnOff (h : Heap) (cout : List String) (dev : Nat) : Heap × List String :=
  match h[dev]? with
  | none => (h, cout)
  | some d => (h.set dev d.turnOff.1, cout ++ [d.turnOff.2])

/-! ## DeviceFactory -/

/-- `DeviceFactory::create`: `make_shared` puts the new object in a fresh heap cell. -/
def DeviceFactory.create (h : Heap) (type name : String) : Heap × Option Nat :=
  if type = "light" then (h ++ [Device.new .Light name], some h.length)
  else if type = "ac" then (h ++ [Device.new .AirConditioner name], some h.length)
  else (h, none)

/-! ## Commands -/

/-- The two `ICommand` classes, each holding its `device` pointer. -/
inductive ICommand where
  | TurnOnCommand (device : Nat)
  | TurnOffCommand (device : Nat)
  deriving DecidableEq, Repr

/-- The `device` member of a command. -/
def ICommand.device : ICommand → Nat
  | .TurnOnCommand dev => dev
  | .TurnOffCommand dev => dev

/-- `TurnOnCommand::execute` / `TurnOffCommand::execute`. -/
def ICommand.execute (c : ICommand) (h : Heap) (cout : List String) : Heap × List String :=
  match c with
  | .TurnOnCommand dev => h.turnOn cout dev
  | .TurnOffCommand dev => h.turnOff cout dev

/-- `TurnOnCommand::undo` / `TurnOffCommand::undo`. -/
def ICommand.undo (c : ICommand) (h : Heap) (cout : List String) : Heap × List String :=
  match c with
  | .TurnOnCommand dev => h.turnOff cout dev
  | .TurnOffCommand dev => h.turnOn cout dev

/-! ## DeviceManager -/

/-- `std::map<std::string, std::shared_ptr<IDevice>>`: the entries in key order. -/
abbrev DeviceMap := List (String × Nat)

/-- `devices.find(name)`: the value stored under `name`, if any. -/
def DeviceMap.find (m : DeviceMap) (name : String) : Option Nat :=
  match m with
  | [] => none
  | (k, v) :: rest => if k = name then some v else DeviceMap.find rest name

/-- `devices[key] = dev`: overwrite the entry of `key`, or insert one at its place
in the key order (`std::less<std::string>`, the lexicographic order of the characters). -/
def DeviceMap.assign (m : DeviceMap) (key : String) (dev : Nat) : DeviceMap :=
  match m with
  | [] => [(key, dev)]
  | (k, v) :: rest =>
    if key.data < k.data then (key, dev) :: (k, v) :: rest
    else if key = k then (key, dev) :: rest
    else (k, v) :: DeviceMap.assign rest key dev

/-- Class `DeviceManager`. -/
structure DeviceManager where
  devices : DeviceMap
  deriving DecidableEq, Repr

/-- `DeviceManager::addDevice`. -/
def DeviceManager.addDevice (m : DeviceManager) (h : Heap) (dev : Option Nat) : DeviceManager :=
  match dev with
  | none => m
  | some p =>
    match h[p]? with
    | none => m
    | some d => { devices := m.devices.assign d.getName p }

/-- `DeviceManager::getDevice`. -/
def DeviceManager.getDevice (m : DeviceManager) (name : String) : Option Nat :=
  m.devices.find name

/-- `DeviceManager::exists`. -/
def DeviceManager.exists_ (m : DeviceManager) (name : String) : Bool :=
  (m.devices.find name).isSome

/-- The text of one pass of the `for` loop in `showAllStatus`. -/
def statusLine (h : Heap) (entry : String × Nat) : String :=
  match h[entry.2]? with
  | none => "\n"
  | some d => d.getStatus ++ "\n"

/-- The writes `showAllStatus` makes, in order: the header, the placeholder when the
map is empty, one line per entry in key order, the footer. -/
def statusReport (m : DeviceMap) (h : Heap) : List String :=
  [Color.BOLD ++ "\n--- СТАТУС БУДИНКУ ---" ++ Color.RESET ++ "\n"]
    ++ (if m.isEmpty then ["(немає пристроїв)\n"] else [])
    ++ m.map (statusLine h)
    ++ ["----------------------\n"]

/-- `DeviceManager::showAllStatus`, writing to `cout`. -/
def DeviceManager.showAllStatus (m : DeviceManager) (h : Heap) (cout : List String) :
    List String :=
  cout ++ statusReport m.devices h

/-! ## CommandInvoker -/

/-- Class `CommandInvoker`; the head of `history` is the top of the stack. -/
structure CommandInvoker where
  history : List ICommand
  deriving DecidableEq, Repr

/-- The session object: `manager`, `invoker`, and the heap and console they act on. -/
structure SmartHomeCLI where
  heap : Heap
  manager : DeviceManager
  invoker : CommandInvoker
  cout : List String
  deriving DecidableEq, Repr

/-- `CommandInvoker::executeCommand`. -/
def CommandInvoker.executeCommand (a : SmartHomeCLI) (cmd : ICommand) : SmartHomeCLI :=
  let r := cmd.execute a.heap a.cout
  { a with heap := r.1, cout := r.2, invoker := { history := cmd :: a.invoker.history } }

/-- The informational message of `undo` on an empty history. -/
def undoInfo : String := Color.YELLOW ++ "[INFO] Немає дій для скасування." ++ Color.RESET ++ "\n"

/-- The announcement `undo` writes before it reverses an action. -/
def undoBanner : String := Color.YELLOW ++ "[UNDO] Відміна останньої дії..." ++ Color.RESET ++ "\n"

/-- `CommandInvoker::undo`. -/
def CommandInvoker.undo (a : SmartHomeCLI) : SmartHomeCLI :=
  match a.invoker.history with
  | [] => { a with cout := a.cout ++ [undoInfo] }
  | top :: rest =>
    let r := top.undo a.heap (a.cout ++ [undoBanner])
    { a with heap := r.1, cout := r.2, invoker := { history := rest } }

/-! ## SmartHomeCLI handlers -/

namespace SmartHomeCLI

/-- The text `printError` writes for the message `msg`. -/
def errorText (msg : String) : String :=
  Color.RED ++ "[ПОМИЛКА] " ++ msg ++ Color.RESET ++ "\n"

/-- `SmartHomeCLI::printError`. -/
def printError (a : SmartHomeCLI) (msg : String) : SmartHomeCLI :=
  { a with cout := a.cout ++ [errorText msg] }

def formatError : String := "Формат: add [тип] [ім\x27я]"
def conflictError : String := "Пристрій з таким ім\x27ям вже існує!"
def unknownTypeError : String := "Невідомий тип пристрою. Доступні: light, ac"
def notFoundError : String := "Пристрій не знайдено."
def unknownCommandError : String := "Невідома команда. Напишіть \x27help\x27."

/-- The confirmation written by a successful `handleAdd`. -/
def addedMessage (name : String) : String :=
  Color.GREEN ++ "[OK] Пристрій \x27" ++ name ++ "\x27 успішно додано." ++ Color.RESET ++ "\n"

/-- `SmartHomeCLI::handleAdd`. -/
def handleAdd (a : SmartHomeCLI) (type name : String) : SmartHomeCLI :=
  if type = "" ∨ name = "" then a.printError formatError
  else if a.manager.exists_ name then a.printError conflictError
  else
    let r := DeviceFactory.create a.heap type name
    match r.2 with
    | some dev =>
      { a with heap := r.1, manager := a.manager.addDevice r.1 (some dev),
               cout := a.cout ++ [addedMessage name] }
    | none => a.printError unknownTypeError

/-- `SmartHomeCLI::handleOn`. -/
def handleOn (a : SmartHomeCLI) (name : String) : SmartHomeCLI :=
  match a.manager.getDevice name with
  | some dev => CommandInvoker.executeCommand a (.TurnOnCommand dev)
  | none => a.printError notFoundError

/-- `SmartHomeCLI::handleOff`. -/
def handleOff (a : SmartHomeCLI) (name : String) : SmartHomeCLI :=
  match a.manager.getDevice name with
  | some dev => CommandInvoker.executeCommand a (.TurnOffCommand dev)
  | none => a.printError notFoundError

/-- `SmartHomeCLI::printWelcome`. -/
def printWelcome (a : SmartHomeCLI) : SmartHomeCLI :=
  { a with cout := a.cout ++
      [Color.BOLD ++ "=== SMART HOME CONTROL SYSTEM v2.0 (SOLID) ===" ++ Color.RESET ++ "\n",
       "Введіть \x27help\x27 для списку команд.\n"] }

/-- `SmartHomeCLI::printHelp`. -/
def printHelp (a : SmartHomeCLI) : SmartHomeCLI :=
  { a with cout := a.cout ++
      ["\nДоступні команди:\n",
       "  add [light|ac] [name]  - Додати новий пристрій\n",
       "  on [name]              - Увімкнути пристрій\n",
       "  off [name]             - Вимкнути пристрій\n",
       "  undo                   - Скасувати останню дію\n",
       "  status                 - Показати статус усіх пристроїв\n",
       "  exit                   - Вийти\n\n"] }

end SmartHomeCLI

/-! ## Input streams -/

/-- Whitespace of the "C" locale, the characters a formatted extraction skips. -/
def isspace (c : Char) : Bool :=
  c = ' ' || c = '\t' || c = '\n' || c = '\x0b' || c = '\x0c' || c = '\r'

/-- An input stream: the characters not yet read, and whether its state is `good()`. -/
structure IStream where
  buf : List Char
  good : Bool
  deriving DecidableEq, Repr

/-- The stream `std::stringstream ss(line)`. -/
def IStream.ofString (line : String) : IStream := { buf := line.data, good := true }

/-- `is >> str` for a `std::string`.  The sentry fails when the stream is not good, or
when only whitespace is left (it then sets `eofbit | failbit`); in both cases `str` is
left as it was.  Otherwise `str` is erased and receives the characters up to the next
whitespace; reaching the end of the buffer sets `eofbit`. -/
def IStream.extract (is : IStream) (str : String) : IStream × String :=
  if is.good then
    match is.buf.dropWhile isspace with
    | [] => ({ buf := [], good := false }, str)
    | c :: cs =>
      let word := (c :: cs).takeWhile (fun x => !isspace x)
      let rest := (c :: cs).dropWhile (fun x => !isspace x)
      ({ buf := rest, good := !rest.isEmpty }, String.mk word)
  else (is, str)

/-- `std::getline(is, str)`.  On a stream that is not good nothing is read and `str` is
left as it was.  Otherwise `str` is erased and receives the characters up to the next
newline, which is consumed; running into the end of the input sets `eofbit` (and
`failbit` when nothing was read). -/
def getline (is : IStream) (str : String) : IStream × String :=
  if is.good then
    match is.buf.dropWhile (fun x => x != '\n') with
    | [] => ({ buf := [], good := false }, String.mk (is.buf.takeWhile (fun x => x != '\n')))
    | _ :: rest => ({ buf := rest, good := true }, String.mk (is.buf.takeWhile (fun x => x != '\n')))
  else (is, str)

/-! ## The dispatch loop of `SmartHomeCLI::start` -/

/-- The state of a running `start()`: the session object, `std::cin`, and the locals
`line`, `cmd`, `arg1`, `arg2`, which are declared before the loop and live across
iterations. -/
structure Session where
  app : SmartHomeCLI
  cin : IStream
  line : String
  cmd : String
  arg1 : String
  arg2 : String
  deriving DecidableEq, Repr

/-- The prompt written at the top of every iteration. -/
def promptText : String := Color.BOLD ++ "> " ++ Color.RESET

/-- The tokenisation `std::stringstream ss(line); ss >> cmd >> arg1 >> arg2;`. -/
def Session.readTokens (s : Session) : Session :=
  let ss := IStream.ofString s.line
  let r1 := ss.extract s.cmd
  let r2 := r1.1.extract s.arg1
  let r3 := r2.1.extract s.arg2
  { s with cmd := r1.2, arg1 := r2.2, arg2 := r3.2 }

/-- The `if`/`else if` chain on `cmd` (lines 179-186).  The flag is `true` when the loop
is left through `break`. -/
def Session.route (t : Session) : Session × Bool :=
  if t.cmd = "exit" then (t, true)
  else if t.cmd = "help" then ({ t with app := t.app.printHelp }, false)
  else if t.cmd = "status" then
    ({ t with app := { t.app with
        cout := t.app.manager.showAllStatus t.app.heap t.app.cout } }, false)
  else if t.cmd = "undo" then ({ t with app := CommandInvoker.undo t.app }, false)
  else if t.cmd = "add" then ({ t with app := t.app.handleAdd t.arg1 t.arg2 }, false)
  else if t.cmd = "on" then ({ t with app := t.app.handleOn t.arg1 }, false)
  else if t.cmd = "off" then ({ t with app := t.app.handleOff t.arg1 }, false)
  else ({ t with app := t.app.printError SmartHomeCLI.unknownCommandError }, false)

/-- The loop body after `std::getline`: the test `line.empty()` with its `continue`,
then the tokenisation and the command chain. -/
def Session.dispatch (s : Session) : Session × Bool :=
  if s.line = "" then (s, false) else s.readTokens.route

/-- Write the prompt (line 172). -/
def Session.prompt (s : Session) : Session :=
  { s with app := { s.app with cout := s.app.cout ++ [promptText] } }

/-- One iteration of the `while (true)` loop, reading from `std::cin`. -/
def Session.iteration (s : Session) : Session × Bool :=
  let p := s.prompt
  let g := getline p.cin p.line
  Session.dispatch { p with cin := g.1, line := g.2 }

/-- One iteration of the loop in which `std::getline` delivers the line `l`. -/
def Session.processLine (s : Session) (l : String) : Session × Bool :=
  Session.dispatch { s.prompt with line := l }

/-- The `while (true)` loop, run for at most `fuel` iterations: `some` final state when
the loop is left within that many iterations, `none` when it is still running. -/
def Session.loop : Nat → Session → Option Session
  | 0, _ => none
  | fuel + 1, s =>
    let r := s.iteration
    if r.2 then some r.1 else Session.loop fuel r.1

/-- A freshly constructed `SmartHomeCLI` and the default-constructed locals of
`start()`, before anything is written. -/
def Session.init (cin : IStream) : Session :=
  { app := { heap := [], manager := { devices := [] }, invoker := { history := [] }, cout := [] },
    cin := cin, line := "", cmd := "", arg1 := "", arg2 := "" }

/-- The state in which the `while` loop is entered: `printWelcome()` has run. -/
def Session.enter (cin : IStream) : Session :=
  { Session.init cin with app := (Session.init cin).app.printWelcome }

/-- `SmartHomeCLI::start` on a fresh object, for at most `fuel` iterations. -/
def SmartHomeCLI.start (fuel : Nat) (cin : IStream) : Option Session :=
  Session.loop fuel (Session.enter cin)

/-- The lines of a list processed one after the other, as long as no `break` occurs. -/
def Session.processLines (s : Session) : List String → Session × Bool
  | [] => (s, false)
  | l :: ls =>
    let r := s.processLine l
    if r.2 then r else Session.processLines r.1 ls

/-- What was written to the console between the states `before` and `after`. -/
def written (before after : SmartHomeCLI) : List String :=
  after.cout.drop before.cout.length

/-- The status line `showAllStatus` writes for a device called `name` that is off. -/
def offLine (name : String) : String :=
  name ++ "\t: " ++ (Color.RED ++ "[OFF]" ++ Color.RESET) ++ "\n"

/-- The status line `showAllStatus` writes for a device called `name` that is on. -/
def onLine (name : String) : String :=
  name ++ "\t: " ++ (Color.GREEN ++ "[ON]" ++ Color.RESET) ++ "\n"

/-- A word as `>>` extracts it: not empty and free of whitespace. -/
def IsToken (w : String) : Prop :=
  w ≠ "" ∧ ∀ c ∈ w.data, isspace c = false

instance (w : String) : Decidable (IsToken w) := by
  unfold IsToken; infer_instance

/-- The key order of the registry: `std::less<std::string>`, the lexicographic order
of the characters. -/
def keyLess (x y : String × Nat) : Prop := x.1.data < y.1.data

instance (x y : String × Nat) : Decidable (keyLess x y) := by
  unfold keyLess; infer_instance

/-- The registry and the history agree with the heap, as they do in every state a
session can reach.
* `sorted`: the keys of the map are strictly increasing (so no key occurs twice);
* `entries`: every key is a word as `>>` extracts it and points to a heap cell that
  holds a device of that name;
* `history`: every command in the history points to a heap cell. -/
structure SmartHomeCLI.WF (a : SmartHomeCLI) : Prop where
  sorted : a.manager.devices.Pairwise keyLess
  entries : ∀ e ∈ a.manager.devices, IsToken e.1 ∧ (a.heap[e.2]?).map Device.name = some e.1
  history : ∀ c ∈ a.invoker.history, c.device < a.heap.length

instance (a : SmartHomeCLI) : Decidable a.WF :=
  decidable_of_iff
    (a.manager.devices.Pairwise keyLess ∧
      (∀ e ∈ a.manager.devices, IsToken e.1 ∧ (a.heap[e.2]?).map Device.name = some e.1) ∧
      (∀ c ∈ a.invoker.history, c.device < a.heap.length))
    ⟨fun h => ⟨h.1, h.2.1, h.2.2⟩, fun h => ⟨h.sorted, h.entries, h.history⟩⟩

/-- The invariant of the dispatch loop: the session object is well formed and the
local `arg2`, the only source of device names, is still empty or holds a word. -/
def Session.Inv (s : Session) : Prop :=
  s.app.WF ∧ (s.arg2 = "" ∨ IsToken s.arg2)

instance (s : Session) : Decidable s.Inv := by
  unfold Session.Inv; infer_instance

/-- The state after the lines of a list have been processed. -/
def Session.run (s : Session) (lines : List String) : Session :=
  (s.processLines lines).1

/-- A new session at the top of its loop, before any line was read; the lines it
processes are handed to `processLine` one at a time. -/
def Session.fresh : Session := Session.enter { buf := [], good := true }

/-- The state after at most `n` iterations of the `while (true)` loop; once the loop
is left through `break` the state stays as it is. -/
def Session.iterate : Nat → Session → Session
  | 0, s => s
  | n + 1, s =>
    let r := s.iteration
    if r.2 then r.1 else Session.iterate n r.1

/-- `executeCommand` called on each action of a list, first to last. -/
def CommandInvoker.executeAll (a : SmartHomeCLI) : List ICommand → SmartHomeCLI
  | [] => a
  | c :: cs => CommandInvoker.executeAll (CommandInvoker.executeCommand a c) cs

/-- `undo` called `k` times in a row. -/
def CommandInvoker.undoTimes : Nat → SmartHomeCLI → SmartHomeCLI
  | 0, a => a
  | k + 1, a => CommandInvoker.undoTimes k (CommandInvoker.undo a)

/-- The inverse transition of an action in the words of the specification: `turnOff` on
the target of a TurnOn action, `turnOn` on the target of a TurnOff action, each preceded
by the announcement `undo` writes. -/
def inverseTransition (w : Heap × List String) (c : ICommand) : Heap × List String :=
  match c with
  | .TurnOnCommand target => Heap.turnOff w.1 (w.2 ++ [undoBanner]) target
  | .TurnOffCommand target => Heap.turnOn w.1 (w.2 ++ [undoBanner]) target

/-- The inverse transitions of a list of actions, applied one after the other in the
order of the list. -/
def inverseTransitions (w : Heap × List String) (cs : List ICommand) : Heap × List String :=
  cs.foldl inverseTransition w

/-- Every action in the history is bound to a device that the registry holds under the
device's own name. -/
def SmartHomeCLI.Bound (a : SmartHomeCLI) : Prop :=
  ∀ c ∈ a.invoker.history, ∃ d, a.heap[c.device]? = some d ∧
    a.manager.getDevice d.getName = some c.device

/-! # Theorems -/

/-! ## Tokenisation -/

theorem dropWhile_space_append (ws tail : List Char) (hws : ∀ c ∈ ws, isspace c = true)
    (htail : ∀ c ∈ tail.head?, isspace c = false) :
    (ws ++ tail).dropWhile isspace = tail := by
  induction ws with
  | nil =>
    cases tail with
    | nil => rfl
    | cons c cs =>
      have hc : isspace c = false := htail c (by simp)
      simp [List.dropWhile, hc]
  | cons c cs ih =>
    have hc : isspace c = true := hws c (by simp)
    have hcs : ∀ x ∈ cs, isspace x = true := fun x hx => hws x (by simp [hx])
    simp [List.dropWhile, hc, ih hcs]

theorem takeWhile_word_append (w rest : List Char) (hns : ∀ c ∈ w, isspace c = false)
    (hrest : ∀ c ∈ rest.head?, isspace c = true) :
    (w ++ rest).takeWhile (fun x => !isspace x) = w := by
  induction w with
  | nil =>
    cases rest with
    | nil => rfl
    | cons c cs =>
      have hc : isspace c = true := hrest c (by simp)
      simp [List.takeWhile, hc]
  | cons c cs ih =>
    have hc : isspace c = false := hns c (by simp)
    have hcs : ∀ x ∈ cs, isspace x = false := fun x hx => hns x (by simp [hx])
    simp [List.takeWhile, hc, ih hcs]

theorem dropWhile_word_append (w rest : List Char) (hns : ∀ c ∈ w, isspace c = false)
    (hrest : ∀ c ∈ rest.head?, isspace c = true) :
    (w ++ rest).dropWhile (fun x => !isspace x) = rest := by
  induction w with
  | nil =>
    cases rest with
    | nil => rfl
    | cons c cs =>
      have hc : isspace c = true := hrest c (by simp)
      simp [List.dropWhile, hc]
  | cons c cs ih =>
    have hc : isspace c = false := hns c (by simp)
    have hcs : ∀ x ∈ cs, isspace x = false := fun x hx => hns x (by simp [hx])
    simp [List.dropWhile, hc, ih hcs]

/-- What `>>` does on a good stream holding optional whitespace, then a word, then
either nothing or more text that starts with whitespace. -/
theorem extract_word (ws w rest : List Char) (str : String)
    (hws : ∀ c ∈ ws, isspace c = true) (hw : w ≠ [])
    (hns : ∀ c ∈ w, isspace c = false) (hrest : ∀ c ∈ rest.head?, isspace c = true) :
    IStream.extract { buf := ws ++ (w ++ rest), good := true } str =
      ({ buf := rest, good := !rest.isEmpty }, String.mk w) := by
  have hhead : ∀ c ∈ (w ++ rest).head?, isspace c = false := by
    cases w with
    | nil => exact absurd rfl hw
    | cons c cs => intro x hx; simp at hx; subst hx; exact hns _ (by simp)
  have h1 := dropWhile_space_append ws (w ++ rest) hws hhead
  have h2 := takeWhile_word_append w rest hns hrest
  have h3 := dropWhile_word_append w rest hns hrest
  unfold IStream.extract
  simp only [if_true, h1]
  cases hwr : w ++ rest with
  | nil => simp at hwr; exact absurd hwr.1 hw
  | cons c cs =>
    simp only []
    rw [← hwr, h2, h3]

/-- On a stream that is not good, `>>` leaves both the stream and the string alone. -/
theorem extract_not_good (is : IStream) (str : String) (h : is.good = false) :
    is.extract str = (is, str) := by
  simp [IStream.extract, h]

/-- On a good stream with only whitespace left, `>>` fails and leaves the string alone. -/
theorem extract_blank (ws : List Char) (str : String) (hws : ∀ c ∈ ws, isspace c = true) :
    IStream.extract { buf := ws, good := true } str = ({ buf := [], good := false }, str) := by
  have h1 := dropWhile_space_append ws [] hws (by simp)
  simp only [List.append_nil] at h1
  simp [IStream.extract, h1]

/-! ## Devices, the registry, and what the tokeniser stores -/

theorem turnOn_fst (d : Device) : d.turnOn.1 = { d with isOn := true } := by
  cases d with | mk c n o => cases c <;> rfl

theorem turnOff_fst (d : Device) : d.turnOff.1 = { d with isOn := false } := by
  cases d with | mk c n o => cases c <;> rfl

theorem find_mem {m : DeviceMap} {name : String} {p : Nat} (h : m.find name = some p) :
    (name, p) ∈ m := by
  induction m with
  | nil => simp [DeviceMap.find] at h
  | cons e rest ih =>
    obtain ⟨k, v⟩ := e
    simp only [DeviceMap.find] at h
    split at h
    · next hk => simp at h; subst hk; subst h; simp
    · exact List.mem_cons_of_mem _ (ih h)

theorem token_data_ne_nil {w : String} (h : IsToken w) : w.data ≠ [] := by
  intro hd
  apply h.1
  cases w
  simp_all

/-- A line made of one token: `cmd` receives it, `arg1` and `arg2` keep their values. -/
theorem readTokens_one (s : Session) (c : String) (hc : IsToken c) (hl : s.line = c) :
    s.readTokens = { s with cmd := c } := by
  have h1 := extract_word [] c.data [] s.cmd (by simp) (token_data_ne_nil hc) hc.2 (by simp)
  simp only [List.append_nil, List.nil_append] at h1
  simp only [Session.readTokens, IStream.ofString, hl, h1]
  simp [extract_not_good]

/-- A line made of two tokens with one blank between them: `cmd` and `arg1` receive
them, `arg2` keeps its value. -/
theorem readTokens_two (s : Session) (c a : String) (hc : IsToken c) (ha : IsToken a)
    (hl : s.line = c ++ " " ++ a) :
    s.readTokens = { s with cmd := c, arg1 := a } := by
  have hd : s.line.data = [] ++ (c.data ++ ([' '] ++ (a.data ++ []))) := by
    rw [hl]; simp
  have h1 := extract_word [] c.data ([' '] ++ (a.data ++ [])) s.cmd (by simp)
    (token_data_ne_nil hc) hc.2 (by simp [isspace])
  have h2 := extract_word [' '] a.data [] s.arg1 (by simp [isspace])
    (token_data_ne_nil ha) ha.2 (by simp)
  simp only [Session.readTokens, IStream.ofString, hd, h1]
  simp only [List.singleton_append, List.cons_append, List.nil_append, List.isEmpty_cons,
    Bool.not_false] at h2 ⊢
  rw [h2]
  simp [extract_not_good]

/-! ## The device map -/

theorem mem_assign {m : DeviceMap} {k : String} {v : Nat} {e : String × Nat}
    (h : e ∈ m.assign k v) : e = (k, v) ∨ e ∈ m := by
  induction m with
  | nil => simp [DeviceMap.assign] at h; exact Or.inl h
  | cons x rest ih =>
    obtain ⟨k', v'⟩ := x
    simp only [DeviceMap.assign] at h
    split at h
    · simp only [List.mem_cons] at h ⊢
      tauto
    · split at h
      · simp only [List.mem_cons] at h ⊢
        tauto
      · simp only [List.mem_cons] at h ⊢
        rcases h with h | h
        · exact Or.inr (Or.inl h)
        · rcases ih h with h | h
          · exact Or.inl h
          · exact Or.inr (Or.inr h)

theorem assign_mem (m : DeviceMap) (k : String) (v : Nat) : (k, v) ∈ m.assign k v := by
  induction m with
  | nil => simp [DeviceMap.assign]
  | cons x rest ih =>
    obtain ⟨k', v'⟩ := x
    simp only [DeviceMap.assign]
    split
    · simp
    · split
      · simp
      · exact List.mem_cons_of_mem _ ih

theorem find_assign_self (m : DeviceMap) (k : String) (v : Nat) :
    (m.assign k v).find k = some v := by
  induction m with
  | nil => simp [DeviceMap.assign, DeviceMap.find]
  | cons x rest ih =>
    obtain ⟨k', v'⟩ := x
    simp only [DeviceMap.assign]
    split
    · simp [DeviceMap.find]
    · split
      · simp [DeviceMap.find]
      · next h1 h2 =>
        have : ¬ k' = k := fun h => h2 h.symm
        simp [DeviceMap.find, this, ih]

theorem find_assign_other (m : DeviceMap) (k k' : String) (v : Nat) (hne : k' ≠ k) :
    (m.assign k v).find k' = m.find k' := by
  induction m with
  | nil => simp [DeviceMap.assign, DeviceMap.find, hne.symm]
  | cons x rest ih =>
    obtain ⟨k₁, v₁⟩ := x
    simp only [DeviceMap.assign]
    split
    · simp [DeviceMap.find, hne.symm]
    · split
      · next h1 h2 =>
        subst h2
        simp [DeviceMap.find, hne.symm]
      · simp [DeviceMap.find, ih]

/-- The string `>>` leaves behind is the old one or a word. -/
theorem extract_snd (is : IStream) (str : String) :
    (is.extract str).2 = str ∨ IsToken (is.extract str).2 := by
  unfold IStream.extract
  split
  · split
    · exact Or.inl rfl
    · next c cs hdw =>
      right
      have hc : isspace c = false := by
        have := List.head_dropWhile_not isspace is.buf (by rw [hdw]; simp)
        simpa [hdw] using this
      constructor
      · intro h
        have := congrArg String.data h
        simp [List.takeWhile, hc] at this
      · intro x hx
        have := List.mem_takeWhile_imp hx
        simpa using this
  · exact Or.inl rfl

/-- Assignment keeps the keys strictly increasing. -/
theorem assign_sorted (m : DeviceMap) (k : String) (v : Nat) (h : m.Pairwise keyLess) :
    (m.assign k v).Pairwise keyLess := by
  induction m with
  | nil => simp [DeviceMap.assign]
  | cons x rest ih =>
    obtain ⟨k', v'⟩ := x
    rw [List.pairwise_cons] at h
    simp only [DeviceMap.assign]
    split
    · next hlt =>
      refine List.Pairwise.cons ?_ (List.Pairwise.cons h.1 h.2)
      intro y hy
      rcases List.mem_cons.mp hy with rfl | hy
      · exact hlt
      · exact lt_trans hlt (h.1 y hy)
    · split
      · next hlt heq =>
        subst heq
        exact List.Pairwise.cons h.1 h.2
      · next hlt hne =>
        have hgt : k'.data < k.data := by
          have hne' : k.data ≠ k'.data := fun hd => hne (String.ext hd)
          exact lt_of_le_of_ne (not_lt.mp hlt) (Ne.symm hne')
        refine List.Pairwise.cons ?_ (ih h.2)
        intro y hy
        rcases mem_assign hy with rfl | hy
        · exact hgt
        · exact h.1 y hy

/-- In a map with strictly increasing keys a key has one value. -/
theorem sorted_unique {m : DeviceMap} {k : String} {p q : Nat} (h : m.Pairwise keyLess)
    (hp : (k, p) ∈ m) (hq : (k, q) ∈ m) : p = q := by
  induction m with
  | nil => simp at hp
  | cons x rest ih =>
    rw [List.pairwise_cons] at h
    rcases List.mem_cons.mp hp with hp' | hp'
    · rcases List.mem_cons.mp hq with hq' | hq'
      · rw [← hp'] at hq'; exact (Prod.mk.inj hq').2.symm
      · have := h.1 _ hq'
        rw [← hp'] at this
        exact absurd this (lt_irrefl k.data)
    · rcases List.mem_cons.mp hq with hq' | hq'
      · have := h.1 _ hp'
        rw [← hq'] at this
        exact absurd this (lt_irrefl k.data)
      · exact ih h.2 hp' hq'

/-! ## Single lines and single handlers -/

theorem token_on : IsToken "on" := by decide

theorem token_off : IsToken "off" := by decide

theorem processLine_on (s : Session) (name : String) (htok : IsToken name) :
    s.processLine ("on " ++ name) =
      ({ s.prompt with line := "on " ++ name, cmd := "on", arg1 := name,
                       app := s.prompt.app.handleOn name }, false) := by
  have hne : ("on " ++ name) ≠ "" := by
    intro h
    have := congrArg String.data h
    simp at this
  have ht := readTokens_two { s.prompt with line := "on " ++ name } "on" name token_on htok rfl
  simp only [Session.processLine, Session.dispatch, if_neg hne, ht]
  rfl

theorem processLine_off (s : Session) (name : String) (htok : IsToken name) :
    s.processLine ("off " ++ name) =
      ({ s.prompt with line := "off " ++ name, cmd := "off", arg1 := name,
                       app := s.prompt.app.handleOff name }, false) := by
  have hne : ("off " ++ name) ≠ "" := by
    intro h
    have := congrArg String.data h
    simp at this
  have ht := readTokens_two { s.prompt with line := "off " ++ name } "off" name token_off htok rfl
  simp only [Session.processLine, Session.dispatch, if_neg hne, ht]
  rfl

theorem processLine_undo (s : Session) :
    s.processLine "undo" =
      ({ s.prompt with line := "undo", cmd := "undo",
                       app := CommandInvoker.undo s.prompt.app }, false) := by
  rfl

theorem processLine_status (s : Session) :
    s.processLine "status" =
      ({ s.prompt with line := "status", cmd := "status",
                       app := { s.prompt.app with
                         cout := s.prompt.app.manager.showAllStatus s.prompt.app.heap
                           s.prompt.app.cout } }, false) := by
  rfl

theorem handleOn_found (a : SmartHomeCLI) (name : String) (p : Nat) (d : Device)
    (hf : a.manager.getDevice name = some p) (hd : a.heap[p]? = some d) :
    a.handleOn name =
      { a with heap := a.heap.set p { d with isOn := true },
               cout := a.cout ++ [d.turnOn.2],
               invoker := { history := .TurnOnCommand p :: a.invoker.history } } := by
  simp [SmartHomeCLI.handleOn, hf, CommandInvoker.executeCommand, ICommand.execute,
    Heap.turnOn, hd, turnOn_fst]

theorem handleOff_found (a : SmartHomeCLI) (name : String) (p : Nat) (d : Device)
    (hf : a.manager.getDevice name = some p) (hd : a.heap[p]? = some d) :
    a.handleOff name =
      { a with heap := a.heap.set p { d with isOn := false },
               cout := a.cout ++ [d.turnOff.2],
               invoker := { history := .TurnOffCommand p :: a.invoker.history } } := by
  simp [SmartHomeCLI.handleOff, hf, CommandInvoker.executeCommand, ICommand.execute,
    Heap.turnOff, hd, turnOff_fst]

theorem undo_turnOn (a : SmartHomeCLI) (p : Nat) (rest : List ICommand) (d : Device)
    (hh : a.invoker.history = .TurnOnCommand p :: rest) (hd : a.heap[p]? = some d) :
    CommandInvoker.undo a =
      { a with heap := a.heap.set p { d with isOn := false },
               cout := a.cout ++ [undoBanner] ++ [d.turnOff.2],
               invoker := { history := rest } } := by
  simp [CommandInvoker.undo, hh, ICommand.undo, Heap.turnOff, hd, turnOff_fst]

theorem undo_turnOff (a : SmartHomeCLI) (p : Nat) (rest : List ICommand) (d : Device)
    (hh : a.invoker.history = .TurnOffCommand p :: rest) (hd : a.heap[p]? = some d) :
    CommandInvoker.undo a =
      { a with heap := a.heap.set p { d with isOn := true },
               cout := a.cout ++ [undoBanner] ++ [d.turnOn.2],
               invoker := { history := rest } } := by
  simp [CommandInvoker.undo, hh, ICommand.undo, Heap.turnOn, hd, turnOn_fst]

/-- A registered name is a key of the map, and under `WF` its cell holds a device of
that name. -/
theorem registered_cell (a : SmartHomeCLI) (name : String) (hwf : a.WF)
    (hreg : a.manager.exists_ name = true) :
    ∃ p d, a.manager.getDevice name = some p ∧ (name, p) ∈ a.manager.devices ∧
      a.heap[p]? = some d ∧ d.name = name := by
  unfold DeviceManager.exists_ at hreg
  obtain ⟨p, hp⟩ := Option.isSome_iff_exists.mp hreg
  have hmem := find_mem hp
  have := (hwf.entries _ hmem).2
  simp only [Option.map_eq_some'] at this
  obtain ⟨d, hd, hn⟩ := this
  exact ⟨p, d, hp, hmem, hd, hn⟩

/-- The status report shows a registered device that is off with its `[OFF]` line. -/
theorem offLine_mem_statusReport (m : DeviceMap) (h : Heap) (name : String) (p : Nat)
    (d : Device) (hmem : (name, p) ∈ m) (hd : h[p]? = some d) (hn : d.name = name)
    (hoff : d.isOn = false) : offLine name ∈ statusReport m h := by
  have : statusLine h (name, p) = offLine name := by
    simp [statusLine, hd, Device.getStatus, hoff, offLine, hn]
  simp only [statusReport, List.mem_append, List.mem_map]
  exact Or.inl (Or.inr ⟨(name, p), hmem, this⟩)

/-- The status report shows a registered device that is on with its `[ON]` line. -/
theorem onLine_mem_statusReport (m : DeviceMap) (h : Heap) (name : String) (p : Nat)
    (d : Device) (hmem : (name, p) ∈ m) (hd : h[p]? = some d) (hn : d.name = name)
    (hon : d.isOn = true) : onLine name ∈ statusReport m h := by
  have : statusLine h (name, p) = onLine name := by
    simp [statusLine, hd, Device.getStatus, hon, onLine, hn]
  simp only [statusReport, List.mem_append, List.mem_map]
  exact Or.inl (Or.inr ⟨(name, p), hmem, this⟩)

/-- What the line `status` writes: the prompt, then the status report. -/
theorem written_status (s : Session) :
    written s.app (s.processLine "status").1.app =
      promptText :: statusReport s.app.manager.devices s.app.heap := by
  simp [processLine_status, written, Session.prompt, DeviceManager.showAllStatus]

/-! ## Reading the status report -/

theorem getStatus_line_data (d : Device) :
    (d.getStatus ++ "\n").data =
      d.name.data ++ (if d.isOn then ("\t: " ++ (Color.GREEN ++ "[ON]" ++ Color.RESET) ++ "\n").data
        else ("\t: " ++ (Color.RED ++ "[OFF]" ++ Color.RESET) ++ "\n").data) := by
  cases h : d.isOn <;> simp [Device.getStatus, h]

theorem onLine_data (name : String) :
    (onLine name).data =
      name.data ++ ['\t', ':', ' ', '\x1b', '[', '3', '2', 'm', '[', 'O', 'N', ']',
        '\x1b', '[', '0', 'm', '\n'] := by
  have e : ("\t: " ++ (Color.GREEN ++ "[ON]" ++ Color.RESET) ++ "\n").data =
      ['\t', ':', ' ', '\x1b', '[', '3', '2', 'm', '[', 'O', 'N', ']', '\x1b', '[', '0', 'm', '\n'] := by
    decide
  rw [← e]; simp [onLine]

theorem offLine_data (name : String) :
    (offLine name).data =
      name.data ++ ['\t', ':', ' ', '\x1b', '[', '3', '1', 'm', '[', 'O', 'F', 'F', ']',
        '\x1b', '[', '0', 'm', '\n'] := by
  have e : ("\t: " ++ (Color.RED ++ "[OFF]" ++ Color.RESET) ++ "\n").data =
      ['\t', ':', ' ', '\x1b', '[', '3', '1', 'm', '[', 'O', 'F', 'F', ']', '\x1b', '[', '0', 'm', '\n'] := by
    decide
  rw [← e]; simp [offLine]

/-- The last seven characters of an `[ON]` line, last first. -/
theorem onLine_tail (name : String) :
    (onLine name).data.reverse.take 7 = ['\n', 'm', '0', '[', '\x1b', ']', 'N'] := by
  rw [onLine_data]; simp

/-- The last seven characters of an `[OFF]` line, last first. -/
theorem offLine_tail (name : String) :
    (offLine name).data.reverse.take 7 = ['\n', 'm', '0', '[', '\x1b', ']', 'F'] := by
  rw [offLine_data]; simp

theorem onLine_ne_offLine (n₁ n₂ : String) : onLine n₁ ≠ offLine n₂ := by
  intro h
  have := congrArg (fun x => x.data.reverse.take 7) h
  simp only [onLine_tail, offLine_tail] at this
  exact absurd this (by decide)

theorem onLine_inj {n₁ n₂ : String} (h : onLine n₁ = onLine n₂) : n₁ = n₂ := by
  have := congrArg String.data h
  rw [onLine_data, onLine_data] at this
  exact String.ext (List.append_cancel_right this)

theorem offLine_inj {n₁ n₂ : String} (h : offLine n₁ = offLine n₂) : n₁ = n₂ := by
  have := congrArg String.data h
  rw [offLine_data, offLine_data] at this
  exact String.ext (List.append_cancel_right this)

theorem getStatus_line (d : Device) :
    d.getStatus ++ "\n" = if d.isOn then onLine d.name else offLine d.name := by
  cases h : d.isOn <;> simp [Device.getStatus, h, onLine, offLine]

/-- A status line is the `[ON]` line of `name` only for a device called `name` that is on. -/
theorem getStatus_eq_onLine (d : Device) (name : String) :
    d.getStatus ++ "\n" = onLine name ↔ d.name = name ∧ d.isOn = true := by
  rw [getStatus_line]
  cases hon : d.isOn
  · simp only [Bool.false_eq_true, if_false, and_false, iff_false]
    exact fun h => onLine_ne_offLine _ _ h.symm
  · simp only [if_true, and_true]
    exact ⟨onLine_inj, fun h => by rw [h]⟩

/-- A status line is the `[OFF]` line of `name` only for a device called `name` that is off. -/
theorem getStatus_eq_offLine (d : Device) (name : String) :
    d.getStatus ++ "\n" = offLine name ↔ d.name = name ∧ d.isOn = false := by
  rw [getStatus_line]
  cases hon : d.isOn
  · simp only [Bool.false_eq_true, if_false, and_true]
    exact ⟨offLine_inj, fun h => by rw [h]⟩
  · simp only [if_true, Bool.true_eq_false, and_false, iff_false]
    exact onLine_ne_offLine _ _

/-- None of the fixed texts of a `status` iteration is a device line. -/
theorem fixed_text_ne_line (name : String) (x : String)
    (hx : x = promptText ∨ x = Color.BOLD ++ "\n--- СТАТУС БУДИНКУ ---" ++ Color.RESET ++ "\n" ∨
      x = "(немає пристроїв)\n" ∨ x = "----------------------\n" ∨ x = "\n") :
    x ≠ onLine name ∧ x ≠ offLine name := by
  constructor
  · intro h
    have := congrArg (fun x => x.data.reverse.take 7) h
    simp only [onLine_tail] at this
    rcases hx with rfl | rfl | rfl | rfl | rfl <;> exact absurd this (by decide)
  · intro h
    have := congrArg (fun x => x.data.reverse.take 7) h
    simp only [offLine_tail] at this
    rcases hx with rfl | rfl | rfl | rfl | rfl <;> exact absurd this (by decide)

/-- The `[ON]` line of `name` is in the output of `status` exactly when some registry
entry points to a device called `name` that is on. -/
theorem onLine_mem_report_iff (m : DeviceMap) (h : Heap) (name : String) :
    onLine name ∈ promptText :: statusReport m h ↔
      ∃ e ∈ m, ∃ d, h[e.2]? = some d ∧ d.name = name ∧ d.isOn = true := by
  have hf := fun x hx => (fixed_text_ne_line name x hx).1
  constructor
  · intro hmem
    simp only [statusReport, List.mem_cons, List.mem_append, List.mem_map, List.mem_singleton,
      List.mem_nil_iff, or_false] at hmem
    rcases hmem with h1 | ((h1 | h1) | ⟨e, he, h1⟩) | h1
    · exact absurd h1.symm (hf _ (Or.inl rfl))
    · exact absurd h1.symm (hf _ (Or.inr (Or.inl rfl)))
    · split at h1
      · simp only [List.mem_singleton] at h1
        exact absurd h1.symm (hf _ (Or.inr (Or.inr (Or.inl rfl))))
      · simp at h1
    · refine ⟨e, he, ?_⟩
      unfold statusLine at h1
      split at h1
      · exact absurd h1 (hf _ (Or.inr (Or.inr (Or.inr (Or.inr rfl)))))
      · next d hd => exact ⟨d, hd, (getStatus_eq_onLine d name).mp h1⟩
    · exact absurd h1.symm (hf _ (Or.inr (Or.inr (Or.inr (Or.inl rfl)))))
  · rintro ⟨⟨k, p⟩, he, d, hd, hn, hon⟩
    have hk : statusLine h (k, p) = onLine name := by
      simp only [statusLine, hd]; exact (getStatus_eq_onLine d name).mpr ⟨hn, hon⟩
    refine List.mem_cons_of_mem _ ?_
    simp only [statusReport, List.mem_append, List.mem_map]
    exact Or.inl (Or.inr ⟨(k, p), he, hk⟩)

/-- The `[OFF]` line of `name` is in the output of `status` exactly when some registry
entry points to a device called `name` that is off. -/
theorem offLine_mem_report_iff (m : DeviceMap) (h : Heap) (name : String) :
    offLine name ∈ promptText :: statusReport m h ↔
      ∃ e ∈ m, ∃ d, h[e.2]? = some d ∧ d.name = name ∧ d.isOn = false := by
  have hf := fun x hx => (fixed_text_ne_line name x hx).2
  constructor
  · intro hmem
    simp only [statusReport, List.mem_cons, List.mem_append, List.mem_map, List.mem_singleton,
      List.mem_nil_iff, or_false] at hmem
    rcases hmem with h1 | ((h1 | h1) | ⟨e, he, h1⟩) | h1
    · exact absurd h1.symm (hf _ (Or.inl rfl))
    · exact absurd h1.symm (hf _ (Or.inr (Or.inl rfl)))
    · split at h1
      · simp only [List.mem_singleton] at h1
        exact absurd h1.symm (hf _ (Or.inr (Or.inr (Or.inl rfl))))
      · simp at h1
    · refine ⟨e, he, ?_⟩
      unfold statusLine at h1
      split at h1
      · exact absurd h1 (hf _ (Or.inr (Or.inr (Or.inr (Or.inr rfl)))))
      · next d hd => exact ⟨d, hd, (getStatus_eq_offLine d name).mp h1⟩
    · exact absurd h1.symm (hf _ (Or.inr (Or.inr (Or.inr (Or.inl rfl)))))
  · rintro ⟨⟨k, p⟩, he, d, hd, hn, hon⟩
    have hk : statusLine h (k, p) = offLine name := by
      simp only [statusLine, hd]; exact (getStatus_eq_offLine d name).mpr ⟨hn, hon⟩
    refine List.mem_cons_of_mem _ ?_
    simp only [statusReport, List.mem_append, List.mem_map]
    exact Or.inl (Or.inr ⟨(k, p), he, hk⟩)

/-! ## Well-formedness is preserved -/

theorem turnOn_name (d : Device) : d.turnOn.1.name = d.name := by
  rw [turnOn_fst]

theorem turnOff_name (d : Device) : d.turnOff.1.name = d.name := by
  rw [turnOff_fst]

theorem set_name (h : Heap) (p : Nat) (d d' : Device) (hd : h[p]? = some d)
    (hn : d'.name = d.name) (q : Nat) :
    ((h.set p d')[q]?).map Device.name = (h[q]?).map Device.name := by
  by_cases hq : p = q
  · subst hq
    have hlt : p < h.length := by
      by_contra hge
      rw [List.getElem?_eq_none (by omega)] at hd
      cases hd
    simp [hlt, hd, hn]
  · simp [List.getElem?_set_ne hq]

theorem heap_turnOn_length (h : Heap) (cout : List String) (p : Nat) :
    (h.turnOn cout p).1.length = h.length := by
  unfold Heap.turnOn
  split <;> simp

theorem heap_turnOff_length (h : Heap) (cout : List String) (p : Nat) :
    (h.turnOff cout p).1.length = h.length := by
  unfold Heap.turnOff
  split <;> simp

theorem heap_turnOn_name (h : Heap) (cout : List String) (p q : Nat) :
    ((h.turnOn cout p).1[q]?).map Device.name = (h[q]?).map Device.name := by
  unfold Heap.turnOn
  split
  · rfl
  · next d hd => exact set_name h p d _ hd (turnOn_name d) q

theorem heap_turnOff_name (h : Heap) (cout : List String) (p q : Nat) :
    ((h.turnOff cout p).1[q]?).map Device.name = (h[q]?).map Device.name := by
  unfold Heap.turnOff
  split
  · rfl
  · next d hd => exact set_name h p d _ hd (turnOff_name d) q

theorem execute_length (c : ICommand) (h : Heap) (cout : List String) :
    (c.execute h cout).1.length = h.length := by
  cases c
  · exact heap_turnOn_length h cout _
  · exact heap_turnOff_length h cout _

theorem execute_name (c : ICommand) (h : Heap) (cout : List String) (q : Nat) :
    ((c.execute h cout).1[q]?).map Device.name = (h[q]?).map Device.name := by
  cases c
  · exact heap_turnOn_name h cout _ q
  · exact heap_turnOff_name h cout _ q

theorem undo_length (c : ICommand) (h : Heap) (cout : List String) :
    (c.undo h cout).1.length = h.length := by
  cases c
  · exact heap_turnOff_length h cout _
  · exact heap_turnOn_length h cout _

theorem undo_name (c : ICommand) (h : Heap) (cout : List String) (q : Nat) :
    ((c.undo h cout).1[q]?).map Device.name = (h[q]?).map Device.name := by
  cases c
  · exact heap_turnOff_name h cout _ q
  · exact heap_turnOn_name h cout _ q

/-- Writing to the console does not touch well-formedness. -/
theorem WF_cout (a : SmartHomeCLI) (out : List String) (h : a.WF) :
    SmartHomeCLI.WF { a with cout := out } := ⟨h.sorted, h.entries, h.history⟩

theorem WF_printError (a : SmartHomeCLI) (msg : String) (h : a.WF) : (a.printError msg).WF :=
  WF_cout a _ h

theorem WF_printHelp (a : SmartHomeCLI) (h : a.WF) : a.printHelp.WF :=
  WF_cout a _ h

theorem WF_executeCommand (a : SmartHomeCLI) (c : ICommand) (hc : c.device < a.heap.length)
    (h : a.WF) : (CommandInvoker.executeCommand a c).WF := by
  refine ⟨h.sorted, ?_, ?_⟩
  · intro e he
    have := h.entries e he
    refine ⟨this.1, ?_⟩
    simp only [CommandInvoker.executeCommand]
    rw [execute_name]
    exact this.2
  · intro c' hc'
    simp only [CommandInvoker.executeCommand, execute_length]
    simp only [CommandInvoker.executeCommand, List.mem_cons] at hc'
    rcases hc' with rfl | hc'
    · exact hc
    · exact h.history c' hc'

theorem WF_undo (a : SmartHomeCLI) (h : a.WF) : (CommandInvoker.undo a).WF := by
  unfold CommandInvoker.undo
  split
  · exact WF_cout a _ h
  · next top rest hh =>
    refine ⟨h.sorted, ?_, ?_⟩
    · intro e he
      have := h.entries e he
      refine ⟨this.1, ?_⟩
      simp only []
      rw [undo_name]
      exact this.2
    · intro c hc
      simp only [undo_length]
      exact h.history c (by rw [hh]; exact List.mem_cons_of_mem _ hc)

theorem getDevice_lt (a : SmartHomeCLI) (name : String) (p : Nat) (h : a.WF)
    (hf : a.manager.getDevice name = some p) : p < a.heap.length := by
  have := (h.entries _ (find_mem hf)).2
  by_contra hge
  rw [List.getElem?_eq_none (by omega)] at this
  simp at this

theorem WF_handleOn (a : SmartHomeCLI) (name : String) (h : a.WF) : (a.handleOn name).WF := by
  unfold SmartHomeCLI.handleOn
  split
  · next dev hf => exact WF_executeCommand a _ (getDevice_lt a name dev h hf) h
  · exact WF_printError a _ h

theorem WF_handleOff (a : SmartHomeCLI) (name : String) (h : a.WF) : (a.handleOff name).WF := by
  unfold SmartHomeCLI.handleOff
  split
  · next dev hf => exact WF_executeCommand a _ (getDevice_lt a name dev h hf) h
  · exact WF_printError a _ h

theorem create_spec (h : Heap) (type name : String) :
    (DeviceFactory.create h type name = (h, none) ∧ type ≠ "light" ∧ type ≠ "ac") ∨
    ∃ cls, DeviceFactory.create h type name = (h ++ [Device.new cls name], some h.length) ∧
      ((type = "light" ∧ cls = .Light) ∨ (type ≠ "light" ∧ type = "ac" ∧ cls = .AirConditioner)) := by
  unfold DeviceFactory.create
  by_cases h1 : type = "light"
  · right; exact ⟨.Light, by simp [h1]⟩
  · by_cases h2 : type = "ac"
    · right; exact ⟨.AirConditioner, by simp [h2]⟩
    · left; simp [h1, h2]

theorem WF_handleAdd (a : SmartHomeCLI) (type name : String) (hname : name = "" ∨ IsToken name)
    (h : a.WF) : (a.handleAdd type name).WF := by
  unfold SmartHomeCLI.handleAdd
  split
  · exact WF_printError a _ h
  · next hne =>
    split
    · exact WF_printError a _ h
    · rcases create_spec a.heap type name with ⟨hc, _, _⟩ | ⟨cls, hc, _⟩
      · simp only [hc]; exact WF_printError a _ h
      · simp only [hc]
        have htok : IsToken name := by
          rcases hname with hn | hn
          · exact absurd (Or.inr hn) hne
          · exact hn
        refine ⟨?_, ?_, ?_⟩
        · simp only [DeviceManager.addDevice, List.getElem?_concat_length, Device.getName,
            Device.new]
          exact assign_sorted _ _ _ h.sorted
        · intro e he
          simp only [DeviceManager.addDevice, List.getElem?_concat_length, Device.getName,
            Device.new] at he
          rcases mem_assign he with rfl | he
          · simp [htok, Device.new]
          · have := h.entries e he
            refine ⟨this.1, ?_⟩
            have hlt : e.2 < a.heap.length := by
              by_contra hge
              have h2 := this.2
              rw [List.getElem?_eq_none (by omega)] at h2
              simp at h2
            simp only []
            rw [List.getElem?_append_left hlt]
            exact this.2
        · intro c hc'
          have := h.history c hc'
          simp only [List.length_append, List.length_singleton]
          omega

/-! ## The loop invariant -/

theorem Inv_readTokens (s : Session) (h : s.Inv) : s.readTokens.Inv := by
  refine ⟨h.1, ?_⟩
  simp only [Session.readTokens]
  rcases extract_snd
    ((((IStream.ofString s.line).extract s.cmd).1.extract s.arg1).1) s.arg2 with he | he
  · rw [he]; exact h.2
  · exact Or.inr he

theorem Inv_route (t : Session) (h : t.Inv) : t.route.1.Inv := by
  unfold Session.route
  split
  · exact h
  · split
    · exact ⟨WF_printHelp _ h.1, h.2⟩
    · split
      · exact ⟨WF_cout _ _ h.1, h.2⟩
      · split
        · exact ⟨WF_undo _ h.1, h.2⟩
        · split
          · exact ⟨WF_handleAdd _ _ _ h.2 h.1, h.2⟩
          · split
            · exact ⟨WF_handleOn _ _ h.1, h.2⟩
            · split
              · exact ⟨WF_handleOff _ _ h.1, h.2⟩
              · exact ⟨WF_printError _ _ h.1, h.2⟩

/-- The loop invariant survives every iteration, whatever the line. -/
theorem Inv_processLine (s : Session) (l : String) (h : s.Inv) : (s.processLine l).1.Inv := by
  have hp : Session.Inv { s.prompt with line := l } := ⟨WF_cout _ _ h.1, h.2⟩
  unfold Session.processLine Session.dispatch
  split
  · exact hp
  · exact Inv_route _ (Inv_readTokens _ hp)

/-- The loop invariant holds when the loop is entered. -/
theorem Inv_enter (cin : IStream) : (Session.enter cin).Inv := by
  refine ⟨⟨?_, ?_, ?_⟩, Or.inl rfl⟩
  · simp [Session.enter, Session.init, SmartHomeCLI.printWelcome]
  · intro e he; simp [Session.enter, Session.init, SmartHomeCLI.printWelcome] at he
  · intro e he; simp [Session.enter, Session.init, SmartHomeCLI.printWelcome] at he

theorem Inv_processLines (s : Session) (ls : List String) (h : s.Inv) :
    (s.processLines ls).1.Inv := by
  induction ls generalizing s with
  | nil => exact h
  | cons l ls ih =>
    simp only [Session.processLines]
    split
    · exact Inv_processLine s l h
    · exact ih _ (Inv_processLine s l h)

/-- Every state reached from the start of a session by processing lines is well formed. -/
theorem WF_run (cin : IStream) (ls : List String) : ((Session.enter cin).run ls).app.WF :=
  (Inv_processLines _ ls (Inv_enter cin)).1

/-- One iteration reading from `std::cin` is `processLine` on the next line of input. -/
theorem iteration_eq_processLine (s : Session) (l : String) (rest : List Char)
    (hgood : s.cin.good = true) (hbuf : s.cin.buf = l.data ++ '\n' :: rest)
    (hnl : '\n' ∉ l.data) :
    s.iteration = Session.processLine { s with cin := { buf := rest, good := true } } l := by
  have h1 : (l.data ++ '\n' :: rest).dropWhile (fun x => x != '\n') = '\n' :: rest := by
    rw [List.dropWhile_append_of_pos]
    · simp [List.dropWhile]
    · intro x hx
      have : x ≠ '\n' := fun h => hnl (h ▸ hx)
      simpa using this
  have h2 : (l.data ++ '\n' :: rest).takeWhile (fun x => x != '\n') = l.data := by
    rw [List.takeWhile_append_of_pos]
    · simp [List.takeWhile]
    · intro x hx
      have : x ≠ '\n' := fun h => hnl (h ▸ hx)
      simpa using this
  simp only [Session.iteration, Session.processLine, getline, Session.prompt, hgood, hbuf, h1, h2]
  rfl

/-! ## Claims about `on`, `off` and `undo` -/

theorem registered_token (a : SmartHomeCLI) (name : String) (hwf : a.WF)
    (hreg : a.manager.exists_ name = true) : IsToken name := by
  obtain ⟨p, d, hf, hmem, hd, hn⟩ := registered_cell a name hwf hreg
  exact (hwf.entries _ hmem).1

theorem cell_lt {h : Heap} {p : Nat} {d : Device} (hd : h[p]? = some d) : p < h.length := by
  by_contra hge
  rw [List.getElem?_eq_none (by omega)] at hd
  cases hd

/-- The session object after the line `on <name>` for a registered name. -/
theorem app_after_on (s : Session) (name : String) (p : Nat) (d : Device) (htok : IsToken name)
    (hf : s.app.manager.getDevice name = some p) (hd : s.app.heap[p]? = some d) :
    (s.processLine ("on " ++ name)).1.app =
      { s.app with heap := s.app.heap.set p { d with isOn := true },
                   cout := s.app.cout ++ [promptText] ++ [d.turnOn.2],
                   invoker := { history := .TurnOnCommand p :: s.app.invoker.history } } := by
  rw [processLine_on s name htok]
  exact handleOn_found s.prompt.app name p d hf hd

/-- The session object after the line `off <name>` for a registered name. -/
theorem app_after_off (s : Session) (name : String) (p : Nat) (d : Device) (htok : IsToken name)
    (hf : s.app.manager.getDevice name = some p) (hd : s.app.heap[p]? = some d) :
    (s.processLine ("off " ++ name)).1.app =
      { s.app with heap := s.app.heap.set p { d with isOn := false },
                   cout := s.app.cout ++ [promptText] ++ [d.turnOff.2],
                   invoker := { history := .TurnOffCommand p :: s.app.invoker.history } } := by
  rw [processLine_off s name htok]
  exact handleOff_found s.prompt.app name p d hf hd

theorem run_nil (s : Session) : s.run [] = s := rfl

/-- Processing a list of lines goes line by line as long as no line is `exit`. -/
theorem run_cons (s : Session) (l : String) (ls : List String) (h : (s.processLine l).2 = false) :
    s.run (l :: ls) = (s.processLine l).1.run ls := by
  simp [Session.run, Session.processLines, h]

theorem run_on (s : Session) (name : String) (htok : IsToken name) (ls : List String) :
    s.run (("on " ++ name) :: ls) = (s.processLine ("on " ++ name)).1.run ls :=
  run_cons s _ ls (by rw [processLine_on s name htok])

theorem run_off (s : Session) (name : String) (htok : IsToken name) (ls : List String) :
    s.run (("off " ++ name) :: ls) = (s.processLine ("off " ++ name)).1.run ls :=
  run_cons s _ ls (by rw [processLine_off s name htok])

theorem run_undo (s : Session) (ls : List String) :
    s.run ("undo" :: ls) = (s.processLine "undo").1.run ls :=
  run_cons s _ ls rfl

theorem run_status (s : Session) (ls : List String) :
    s.run ("status" :: ls) = (s.processLine "status").1.run ls :=
  run_cons s _ ls rfl

/-- The line `status` changes nothing but the console. -/
theorem app_after_status (s : Session) :
    (s.processLine "status").1.app =
      { s.app with cout := s.app.cout ++ promptText :: statusReport s.app.manager.devices s.app.heap } := by
  simp [processLine_status, Session.prompt, DeviceManager.showAllStatus]

/-- What the line `status` shows for a registered device: its `[ON]` line exactly when
the device is on, its `[OFF]` line exactly when it is off. -/
theorem status_shows (s : Session) (name : String) (p : Nat) (d : Device) (hwf : s.app.WF)
    (hf : s.app.manager.getDevice name = some p) (hd : s.app.heap[p]? = some d) :
    (onLine name ∈ written s.app (s.processLine "status").1.app ↔ d.isOn = true) ∧
    (offLine name ∈ written s.app (s.processLine "status").1.app ↔ d.isOn = false) := by
  have hmem := find_mem hf
  have hn : d.name = name := by
    have := (hwf.entries _ hmem).2
    rw [hd] at this
    simpa using this
  have huniq : ∀ e ∈ s.app.manager.devices, ∀ d', s.app.heap[e.2]? = some d' → d'.name = name →
      d' = d := by
    intro e he d' hd' hn'
    have h1 := (hwf.entries e he).2
    rw [hd'] at h1
    have hk : e.1 = name := by
      have : d'.name = e.1 := by simpa using h1
      rw [← this, hn']
    have he' : (name, e.2) ∈ s.app.manager.devices := by rw [← hk]; exact he
    have hq := sorted_unique hwf.sorted he' hmem
    rw [hq, hd] at hd'
    exact (Option.some.inj hd').symm
  rw [written_status, onLine_mem_report_iff, offLine_mem_report_iff]
  constructor
  · constructor
    · rintro ⟨e, he, d', hd', hn', hon⟩
      rw [← huniq e he d' hd' hn']; exact hon
    · intro hon
      exact ⟨(name, p), hmem, d, hd, hn, hon⟩
  · constructor
    · rintro ⟨e, he, d', hd', hn', hoff⟩
      rw [← huniq e he d' hd' hn']; exact hoff
    · intro hoff
      exact ⟨(name, p), hmem, d, hd, hn, hoff⟩

/-- C1: for every well-formed session state and every registered name, after the lines
`on <name>` and `undo` the device is off, whatever its state was before: the registry
still finds it, its cell holds `isOn = false`, and the output of the following `status`
contains its `[OFF]` line and not its `[ON]` line. -/
theorem on_undo_status_shows_off (s : Session) (name : String)
    (hwf : s.app.WF) (hreg : s.app.manager.exists_ name = true) :
    offLine name ∈ written (s.run ["on " ++ name, "undo"]).app
        (s.run ["on " ++ name, "undo", "status"]).app ∧
    onLine name ∉ written (s.run ["on " ++ name, "undo"]).app
        (s.run ["on " ++ name, "undo", "status"]).app ∧
    ∃ p d, (s.run ["on " ++ name, "undo"]).app.manager.getDevice name = some p ∧
      (s.run ["on " ++ name, "undo"]).app.heap[p]? = some d ∧ d.name = name ∧ d.isOn = false := by
  have htok := registered_token s.app name hwf hreg
  obtain ⟨p, d, hf, hmem, hd, hn⟩ := registered_cell s.app name hwf hreg
  have hlt := cell_lt hd
  have h1 := app_after_on s name p d htok hf hd
  have hrun : s.run ["on " ++ name, "undo"] =
      ((s.processLine ("on " ++ name)).1.processLine "undo").1 := by
    rw [run_on s name htok, run_undo, run_nil]
  have h2 : (s.run ["on " ++ name, "undo"]).app =
      { s.app with heap := (s.app.heap.set p { d with isOn := true }).set p { d with isOn := false },
                   cout := s.app.cout ++ [promptText] ++ [d.turnOn.2] ++ [promptText]
                     ++ [undoBanner] ++ [(Device.turnOff { d with isOn := true }).2] } := by
    rw [hrun, processLine_undo]
    simp only [Session.prompt, h1]
    rw [undo_turnOn _ p s.app.invoker.history { d with isOn := true } rfl (by simp [hlt])]
  have hwf2 : (s.run ["on " ++ name, "undo"]).app.WF := by
    rw [hrun, processLine_undo, processLine_on s name htok]
    exact WF_undo _ (WF_cout _ _ (WF_handleOn _ _ (WF_cout _ _ hwf)))
  have h3 : (s.run ["on " ++ name, "undo", "status"]).app =
      ((s.run ["on " ++ name, "undo"]).processLine "status").1.app := by
    rw [run_on s name htok, run_undo, run_status, run_nil, run_on s name htok, run_undo, run_nil]
  have hf2 : (s.run ["on " ++ name, "undo"]).app.manager.getDevice name = some p := by
    rw [h2]; exact hf
  have hcell : (s.run ["on " ++ name, "undo"]).app.heap[p]? = some { d with isOn := false } := by
    rw [h2]; simp [hlt]
  have hshow := status_shows (s.run ["on " ++ name, "undo"]) name p _ hwf2 hf2 hcell
  rw [h3]
  refine ⟨hshow.2.mpr rfl, ?_, p, { d with isOn := false }, hf2, hcell, hn, rfl⟩
  intro hon
  exact absurd (hshow.1.mp hon) (by simp)

/-- Instance of C1: a lamp that is already on when `on Lamp` and `undo` are entered. -/
theorem on_undo_status_shows_off_witness :
    (Session.fresh.run ["add light Lamp", "on Lamp"]).app.WF ∧
    (Session.fresh.run ["add light Lamp", "on Lamp"]).app.manager.exists_ "Lamp" = true ∧
    offLine "Lamp" ∈ written
      ((Session.fresh.run ["add light Lamp", "on Lamp"]).run ["on " ++ "Lamp", "undo"]).app
      ((Session.fresh.run ["add light Lamp", "on Lamp"]).run ["on " ++ "Lamp", "undo", "status"]).app :=
  ⟨by decide, by decide,
    (on_undo_status_shows_off (Session.fresh.run ["add light Lamp", "on Lamp"]) "Lamp"
      (by decide) (by decide)).1⟩

theorem turnOn_snd_isOn (d : Device) (b : Bool) :
    (Device.turnOn { d with isOn := b }).2 = d.turnOn.2 := by
  cases d with | mk c n o => cases c <;> rfl

theorem turnOff_snd_isOn (d : Device) (b : Bool) :
    (Device.turnOff { d with isOn := b }).2 = d.turnOff.2 := by
  cases d with | mk c n o => cases c <;> rfl

/-- Overwriting a cell with a copy of its device that differs at most in `isOn` gives
the heap back exactly when the flag is the one the device had. -/
theorem set_isOn_eq_iff (h : Heap) (p : Nat) (d : Device) (b : Bool) (hd : h[p]? = some d) :
    h.set p { d with isOn := b } = h ↔ d.isOn = b := by
  have hlt := cell_lt hd
  constructor
  · intro heq
    have h1 : (h.set p { d with isOn := b })[p]? = some { d with isOn := b } := by simp [hlt]
    rw [heq, hd] at h1
    have := congrArg Device.isOn (Option.some.inj h1)
    simpa using this
  · intro hb
    have : ({ d with isOn := b } : Device) = d := by
      cases d; simp_all
    rw [this]
    apply List.ext_getElem?
    intro q
    by_cases hq : p = q
    · subst hq; simp [hlt, hd]
    · simp [List.getElem?_set_ne hq]

/-- C2 (as stated, refuted): a lamp that is already on when `TurnOnCommand` is executed is
off after `executeCommand` and `undo`, so the on/off states are not what they were. -/
theorem executeCommand_undo_not_exact :
    (Session.fresh.run ["add light Lamp", "on Lamp"]).app.WF ∧
    (Session.fresh.run ["add light Lamp", "on Lamp"]).app.manager.getDevice "Lamp" = some 0 ∧
    (Session.fresh.run ["add light Lamp", "on Lamp"]).app.heap.map Device.isOn = [true] ∧
    (CommandInvoker.undo (CommandInvoker.executeCommand
      (Session.fresh.run ["add light Lamp", "on Lamp"]).app (.TurnOnCommand 0))).heap.map
        Device.isOn = [false] ∧
    (CommandInvoker.undo (CommandInvoker.executeCommand
      (Session.fresh.run ["add light Lamp", "on Lamp"]).app (.TurnOnCommand 0))).heap ≠
      (Session.fresh.run ["add light Lamp", "on Lamp"]).app.heap := by
  decide

/-- C2 (amended): for every well-formed session state and every registered device,
`executeCommand` followed by `undo` gives back the history and the registry exactly and
touches no other device; the target is left in the state opposite to the verb (off after
turn-on, on after turn-off), so the heap is what it was exactly when the device was in
that opposite state before the action. -/
theorem executeCommand_undo_restores (a : SmartHomeCLI) (name : String) (p : Nat)
    (hwf : a.WF) (hreg : a.manager.getDevice name = some p) :
    ∃ d, a.heap[p]? = some d ∧
      CommandInvoker.undo (CommandInvoker.executeCommand a (.TurnOnCommand p)) =
        { a with heap := a.heap.set p { d with isOn := false },
                 cout := a.cout ++ [d.turnOn.2, undoBanner, d.turnOff.2] } ∧
      CommandInvoker.undo (CommandInvoker.executeCommand a (.TurnOffCommand p)) =
        { a with heap := a.heap.set p { d with isOn := true },
                 cout := a.cout ++ [d.turnOff.2, undoBanner, d.turnOn.2] } ∧
      ((CommandInvoker.undo (CommandInvoker.executeCommand a (.TurnOnCommand p))).heap = a.heap
        ↔ d.isOn = false) ∧
      ((CommandInvoker.undo (CommandInvoker.executeCommand a (.TurnOffCommand p))).heap = a.heap
        ↔ d.isOn = true) := by
  have hmem := find_mem hreg
  have := (hwf.entries _ hmem).2
  simp only [Option.map_eq_some'] at this
  obtain ⟨d, hd, hn⟩ := this
  have hlt := cell_lt hd
  have hon : CommandInvoker.undo (CommandInvoker.executeCommand a (.TurnOnCommand p)) =
        { a with heap := a.heap.set p { d with isOn := false },
                 cout := a.cout ++ [d.turnOn.2, undoBanner, d.turnOff.2] } := by
    simp [CommandInvoker.undo, CommandInvoker.executeCommand, ICommand.execute, ICommand.undo,
      Heap.turnOn, Heap.turnOff, hd, hlt, turnOn_fst, turnOff_fst, turnOff_snd_isOn]
  have hoff : CommandInvoker.undo (CommandInvoker.executeCommand a (.TurnOffCommand p)) =
        { a with heap := a.heap.set p { d with isOn := true },
                 cout := a.cout ++ [d.turnOff.2, undoBanner, d.turnOn.2] } := by
    simp [CommandInvoker.undo, CommandInvoker.executeCommand, ICommand.execute, ICommand.undo,
      Heap.turnOn, Heap.turnOff, hd, hlt, turnOn_fst, turnOff_fst, turnOn_snd_isOn]
  refine ⟨d, hd, hon, hoff, ?_, ?_⟩
  · rw [hon]; exact set_isOn_eq_iff a.heap p d false hd
  · rw [hoff]; exact set_isOn_eq_iff a.heap p d true hd

/-- Instance of C2 (amended): turn-off then undo on a lamp that is on gives the heap back. -/
theorem executeCommand_undo_restores_witness :
    (Session.fresh.run ["add ac Cooler", "add light Lamp", "on Lamp"]).app.WF ∧
    (Session.fresh.run ["add ac Cooler", "add light Lamp", "on Lamp"]).app.manager.getDevice
      "Lamp" = some 1 ∧
    ∃ d, (Session.fresh.run ["add ac Cooler", "add light Lamp", "on Lamp"]).app.heap[1]? = some d ∧
      ((CommandInvoker.undo (CommandInvoker.executeCommand
          (Session.fresh.run ["add ac Cooler", "add light Lamp", "on Lamp"]).app
          (.TurnOffCommand 1))).heap =
        (Session.fresh.run ["add ac Cooler", "add light Lamp", "on Lamp"]).app.heap
        ↔ d.isOn = true) :=
  ⟨by decide, by decide,
    (executeCommand_undo_restores
      (Session.fresh.run ["add ac Cooler", "add light Lamp", "on Lamp"]).app "Lamp" 1
      (by decide) (by decide)).imp fun _ h => ⟨h.1, h.2.2.2.2⟩⟩

/-! ## Claims about `add` -/

/-- What `handleAdd` does when both arguments are present, the name is free and the
type is one the factory knows. -/
theorem handleAdd_created (a : SmartHomeCLI) (type name : String) (cls : DeviceClass)
    (htype : (type = "light" ∧ cls = .Light) ∨ (type ≠ "light" ∧ type = "ac" ∧ cls = .AirConditioner))
    (hname : name ≠ "") (hnew : a.manager.exists_ name = false) :
    a.handleAdd type name =
      { a with heap := a.heap ++ [Device.new cls name],
               manager := { devices := a.manager.devices.assign name a.heap.length },
               cout := a.cout ++ [SmartHomeCLI.addedMessage name] } := by
  have ht : type ≠ "" := by
    rcases htype with ⟨h, _⟩ | ⟨_, h, _⟩ <;> subst h <;> decide
  have hc : DeviceFactory.create a.heap type name =
      (a.heap ++ [Device.new cls name], some a.heap.length) := by
    unfold DeviceFactory.create
    rcases htype with ⟨h, hcls⟩ | ⟨h1, h2, hcls⟩
    · subst hcls; simp [h]
    · subst hcls; simp [h1, h2]
  simp [SmartHomeCLI.handleAdd, ht, hname, hnew, hc, DeviceManager.addDevice, Device.getName,
    Device.new]

/-- The confirmation of `handleAdd`, character by character: green, `[OK] Пристрій`, the
name between apostrophes, `успішно додано.`, colour reset, newline. -/
theorem addedMessage_text (name : String) :
    SmartHomeCLI.addedMessage name =
      "\x1b[32m[OK] Пристрій \x27" ++ name ++ "\x27 успішно додано.\x1b[0m\n" := by
  have h1 : Color.GREEN ++ "[OK] Пристрій \x27" = "\x1b[32m[OK] Пристрій \x27" := by decide
  have h2 : "\x27 успішно додано." ++ (Color.RESET ++ "\n") = "\x27 успішно додано.\x1b[0m\n" := by
    decide
  rw [← h1, ← h2]
  simp [SmartHomeCLI.addedMessage, String.append_assoc]

/-- C3: for every session state, every type in {"light", "ac"} and every non-empty name
that is not registered, `handleAdd(type, name)` writes the confirmation
`"\x1b[32m[OK] Пристрій '" + name + "' успішно додано.\x1b[0m\n"` and nothing else,
the registry then finds under `name` a device called `name` that is off (a `Light` for
"light", an `AirConditioner` for "ac"), and the output of a following `showAllStatus`
contains the line `name + "\t: " + [OFF]`. -/
theorem handleAdd_adds_device_off (a : SmartHomeCLI) (type name : String)
    (htype : type = "light" ∨ type = "ac") (hname : name ≠ "")
    (hnew : a.manager.exists_ name = false) :
    written a (a.handleAdd type name) =
      ["\x1b[32m[OK] Пристрій \x27" ++ name ++ "\x27 успішно додано.\x1b[0m\n"] ∧
    (a.handleAdd type name).manager.exists_ name = true ∧
    (∃ p, (a.handleAdd type name).manager.getDevice name = some p ∧
      (a.handleAdd type name).heap[p]? =
        some { cls := if type = "light" then .Light else .AirConditioner,
               name := name, isOn := false }) ∧
    offLine name ∈ written (a.handleAdd type name)
      { a.handleAdd type name with
        cout := (a.handleAdd type name).manager.showAllStatus (a.handleAdd type name).heap
          (a.handleAdd type name).cout } := by
  have hcls : (type = "light" ∧ (if type = "light" then DeviceClass.Light else .AirConditioner) = .Light) ∨
      (type ≠ "light" ∧ type = "ac" ∧
        (if type = "light" then DeviceClass.Light else .AirConditioner) = .AirConditioner) := by
    by_cases h : type = "light"
    · left; simp [h]
    · right; rcases htype with h1 | h1
      · exact absurd h1 h
      · exact ⟨h, h1, by simp [h]⟩
  rw [handleAdd_created a type name _ hcls hname hnew]
  have hfind := find_assign_self a.manager.devices name a.heap.length
  refine ⟨by rw [← addedMessage_text]; simp [written],
    by simp [DeviceManager.exists_, hfind], ⟨a.heap.length, hfind, ?_⟩, ?_⟩
  · simp [Device.new]
  · simp only [written, DeviceManager.showAllStatus, List.drop_left]
    exact offLine_mem_statusReport _ _ name a.heap.length
      (Device.new (if type = "light" then .Light else .AirConditioner) name)
      (assign_mem _ _ _) (by simp) rfl rfl

/-- Instance of C3: `add ac Cooler` in a session that holds a lamp. -/
theorem handleAdd_adds_device_off_witness :
    ("ac" = "light" ∨ "ac" = "ac") ∧ "Cooler" ≠ "" ∧
    (Session.fresh.run ["add light Lamp", "on Lamp"]).app.manager.exists_ "Cooler" = false ∧
    written (Session.fresh.run ["add light Lamp", "on Lamp"]).app
      ((Session.fresh.run ["add light Lamp", "on Lamp"]).app.handleAdd "ac" "Cooler") =
      ["\x1b[32m[OK] Пристрій \x27" ++ "Cooler" ++ "\x27 успішно додано.\x1b[0m\n"] :=
  ⟨by decide, by decide, by decide,
    (handleAdd_adds_device_off (Session.fresh.run ["add light Lamp", "on Lamp"]).app "ac" "Cooler"
      (by decide) (by decide) (by decide)).1⟩

/-- C5: for every well-formed session state, every registered name and every non-empty
type string, `handleAdd(type, name)` writes the conflict error and nothing else and
leaves the registry, the history and every device (class, name and on/off state) as they
were. -/
theorem handleAdd_conflict (a : SmartHomeCLI) (type name : String) (hwf : a.WF)
    (htype : type ≠ "") (hreg : a.manager.exists_ name = true) :
    a.handleAdd type name = a.printError SmartHomeCLI.conflictError ∧
    written a (a.handleAdd type name) =
      [SmartHomeCLI.errorText SmartHomeCLI.conflictError] ∧
    (a.handleAdd type name).manager = a.manager ∧
    (a.handleAdd type name).invoker = a.invoker ∧
    (a.handleAdd type name).heap = a.heap := by
  have hname : name ≠ "" := (registered_token a name hwf hreg).1
  have h : a.handleAdd type name = a.printError SmartHomeCLI.conflictError := by
    simp [SmartHomeCLI.handleAdd, htype, hname, hreg]
  rw [h]
  exact ⟨rfl, by simp [written, SmartHomeCLI.printError], rfl, rfl, rfl⟩

/-- Instance of C5: `add light L1` a second time, after the first `L1` was switched on. -/
theorem handleAdd_conflict_witness :
    (Session.fresh.run ["add light L1", "on L1"]).app.WF ∧ "light" ≠ "" ∧
    (Session.fresh.run ["add light L1", "on L1"]).app.manager.exists_ "L1" = true ∧
    (Session.fresh.run ["add light L1", "on L1"]).app.heap =
      [{ cls := .Light, name := "L1", isOn := true }] ∧
    ((Session.fresh.run ["add light L1", "on L1"]).app.handleAdd "light" "L1").heap =
      (Session.fresh.run ["add light L1", "on L1"]).app.heap :=
  ⟨by decide, by decide, by decide, by decide,
    (handleAdd_conflict (Session.fresh.run ["add light L1", "on L1"]).app "light" "L1"
      (by decide) (by decide) (by decide)).2.2.2.2⟩

/-- C6: for every session state, every non-empty type other than "light" and "ac" and
every non-empty name that is not registered, `handleAdd(type, name)` writes the
unknown-type error and nothing else and leaves the registry, the history and the heap as
they were; `exists(name)` is still false. -/
theorem handleAdd_unknown_type (a : SmartHomeCLI) (type name : String)
    (htype : type ≠ "") (hlight : type ≠ "light") (hac : type ≠ "ac") (hname : name ≠ "")
    (hnew : a.manager.exists_ name = false) :
    a.handleAdd type name = a.printError SmartHomeCLI.unknownTypeError ∧
    written a (a.handleAdd type name) =
      [SmartHomeCLI.errorText SmartHomeCLI.unknownTypeError] ∧
    (a.handleAdd type name).manager = a.manager ∧
    (a.handleAdd type name).invoker = a.invoker ∧
    (a.handleAdd type name).heap = a.heap ∧
    (a.handleAdd type name).manager.exists_ name = false := by
  have h : a.handleAdd type name = a.printError SmartHomeCLI.unknownTypeError := by
    simp [SmartHomeCLI.handleAdd, htype, hname, hnew, DeviceFactory.create, hlight, hac]
  rw [h]
  exact ⟨rfl, by simp [written, SmartHomeCLI.printError], rfl, rfl, rfl, hnew⟩

/-- Instance of C6: `add foo X`. -/
theorem handleAdd_unknown_type_witness :
    "foo" ≠ "" ∧ "foo" ≠ "light" ∧ "foo" ≠ "ac" ∧ "X" ≠ "" ∧
    (Session.fresh.run ["add light Lamp"]).app.manager.exists_ "X" = false ∧
    ((Session.fresh.run ["add light Lamp"]).app.handleAdd "foo" "X").manager.exists_ "X" = false :=
  ⟨by decide, by decide, by decide, by decide, by decide,
    (handleAdd_unknown_type (Session.fresh.run ["add light Lamp"]).app "foo" "X"
      (by decide) (by decide) (by decide) (by decide) (by decide)).2.2.2.2.2⟩

/-! ## The displayed status after `on` and `off` -/

/-- C4: for every well-formed session state and every registered name, whatever the
device's class and previous state: after the line `on <name>` the device is on and the
output of a following `status` contains its `[ON]` line and not its `[OFF]` line; after
the line `off <name>` it is off and the output of a following `status` contains its
`[OFF]` line and not its `[ON]` line. -/
theorem status_reflects_last_transition (s : Session) (name : String)
    (hwf : s.app.WF) (hreg : s.app.manager.exists_ name = true) :
    (onLine name ∈ written (s.run ["on " ++ name]).app (s.run ["on " ++ name, "status"]).app ∧
      offLine name ∉ written (s.run ["on " ++ name]).app (s.run ["on " ++ name, "status"]).app ∧
      ∃ p d, (s.run ["on " ++ name]).app.manager.getDevice name = some p ∧
        (s.run ["on " ++ name]).app.heap[p]? = some d ∧ d.name = name ∧ d.isOn = true) ∧
    (offLine name ∈ written (s.run ["off " ++ name]).app (s.run ["off " ++ name, "status"]).app ∧
      onLine name ∉ written (s.run ["off " ++ name]).app (s.run ["off " ++ name, "status"]).app ∧
      ∃ p d, (s.run ["off " ++ name]).app.manager.getDevice name = some p ∧
        (s.run ["off " ++ name]).app.heap[p]? = some d ∧ d.name = name ∧ d.isOn = false) := by
  have htok := registered_token s.app name hwf hreg
  obtain ⟨p, d, hf, hmem, hd, hn⟩ := registered_cell s.app name hwf hreg
  have hlt := cell_lt hd
  constructor
  · have hrun : s.run ["on " ++ name] = (s.processLine ("on " ++ name)).1 := by
      rw [run_on s name htok, run_nil]
    have h1 : (s.run ["on " ++ name]).app =
        { s.app with heap := s.app.heap.set p { d with isOn := true },
                     cout := s.app.cout ++ [promptText] ++ [d.turnOn.2],
                     invoker := { history := .TurnOnCommand p :: s.app.invoker.history } } := by
      rw [hrun]; exact app_after_on s name p d htok hf hd
    have hwf1 : (s.run ["on " ++ name]).app.WF := by
      rw [hrun, processLine_on s name htok]
      exact WF_handleOn _ _ (WF_cout _ _ hwf)
    have h2 : (s.run ["on " ++ name, "status"]).app =
        ((s.run ["on " ++ name]).processLine "status").1.app := by
      rw [run_on s name htok, run_status, run_nil, run_on s name htok, run_nil]
    have hf1 : (s.run ["on " ++ name]).app.manager.getDevice name = some p := by
      rw [h1]; exact hf
    have hcell : (s.run ["on " ++ name]).app.heap[p]? = some { d with isOn := true } := by
      rw [h1]; simp [hlt]
    have hshow := status_shows (s.run ["on " ++ name]) name p _ hwf1 hf1 hcell
    rw [h2]
    refine ⟨hshow.1.mpr rfl, ?_, p, { d with isOn := true }, hf1, hcell, hn, rfl⟩
    intro hoff
    exact absurd (hshow.2.mp hoff) (by simp)
  · have hrun : s.run ["off " ++ name] = (s.processLine ("off " ++ name)).1 := by
      rw [run_off s name htok, run_nil]
    have h1 : (s.run ["off " ++ name]).app =
        { s.app with heap := s.app.heap.set p { d with isOn := false },
                     cout := s.app.cout ++ [promptText] ++ [d.turnOff.2],
                     invoker := { history := .TurnOffCommand p :: s.app.invoker.history } } := by
      rw [hrun]; exact app_after_off s name p d htok hf hd
    have hwf1 : (s.run ["off " ++ name]).app.WF := by
      rw [hrun, processLine_off s name htok]
      exact WF_handleOff _ _ (WF_cout _ _ hwf)
    have h2 : (s.run ["off " ++ name, "status"]).app =
        ((s.run ["off " ++ name]).processLine "status").1.app := by
      rw [run_off s name htok, run_status, run_nil, run_off s name htok, run_nil]
    have hf1 : (s.run ["off " ++ name]).app.manager.getDevice name = some p := by
      rw [h1]; exact hf
    have hcell : (s.run ["off " ++ name]).app.heap[p]? = some { d with isOn := false } := by
      rw [h1]; simp [hlt]
    have hshow := status_shows (s.run ["off " ++ name]) name p _ hwf1 hf1 hcell
    rw [h2]
    refine ⟨hshow.2.mpr rfl, ?_, p, { d with isOn := false }, hf1, hcell, hn, rfl⟩
    intro hon
    exact absurd (hshow.1.mp hon) (by simp)

/-- Instance of C4: an air conditioner that is on is switched off. -/
theorem status_reflects_last_transition_witness :
    (Session.fresh.run ["add light Lamp", "add ac Cooler", "on Cooler"]).app.WF ∧
    (Session.fresh.run ["add light Lamp", "add ac Cooler", "on Cooler"]).app.manager.exists_
      "Cooler" = true ∧
    offLine "Cooler" ∈
      written ((Session.fresh.run ["add light Lamp", "add ac Cooler", "on Cooler"]).run
          ["off " ++ "Cooler"]).app
        ((Session.fresh.run ["add light Lamp", "add ac Cooler", "on Cooler"]).run
          ["off " ++ "Cooler", "status"]).app :=
  ⟨by decide, by decide,
    (status_reflects_last_transition
      (Session.fresh.run ["add light Lamp", "add ac Cooler", "on Cooler"]) "Cooler"
      (by decide) (by decide)).2.1⟩

/-! ## Error paths of `on`, `off` and `undo` -/

/-- With an empty history `undo` only appends the informational message. -/
theorem undo_of_empty (a : SmartHomeCLI) (hempty : a.invoker.history = []) :
    CommandInvoker.undo a = { a with cout := a.cout ++ [undoInfo] } := by
  simp [CommandInvoker.undo, hempty]

/-- C8: for every session state with an empty history, `CommandInvoker::undo` writes the
informational message and nothing else (so no device operation ran, each of which writes
a message of its own) and leaves every device, the registry and the empty history as
they were. -/
theorem undo_empty_history (a : SmartHomeCLI) (hempty : a.invoker.history = []) :
    CommandInvoker.undo a = { a with cout := a.cout ++ [undoInfo] } ∧
    written a (CommandInvoker.undo a) = [undoInfo] ∧
    (CommandInvoker.undo a).heap = a.heap ∧
    (CommandInvoker.undo a).manager = a.manager ∧
    (CommandInvoker.undo a).invoker.history = [] := by
  rw [undo_of_empty a hempty]
  exact ⟨rfl, by simp [written], rfl, rfl, hempty⟩

/-- Instance of C8: a second `undo` after the only action was undone. -/
theorem undo_empty_history_witness :
    (Session.fresh.run ["add light Lamp", "on Lamp", "undo"]).app.invoker.history = [] ∧
    written (Session.fresh.run ["add light Lamp", "on Lamp", "undo"]).app
      (CommandInvoker.undo (Session.fresh.run ["add light Lamp", "on Lamp", "undo"]).app) =
      [undoInfo] :=
  ⟨by decide,
    (undo_empty_history (Session.fresh.run ["add light Lamp", "on Lamp", "undo"]).app
      (by decide)).2.1⟩

/-- C7: for every session state and every name that is not registered, `handleOn(name)`
and `handleOff(name)` write the not-found error and nothing else and leave the registry,
the history and the heap as they were; when the history was empty, a following `undo`
still writes the empty-history message. -/
theorem handleOn_handleOff_not_found (a : SmartHomeCLI) (name : String)
    (hnot : a.manager.exists_ name = false) :
    (written a (a.handleOn name) = [SmartHomeCLI.errorText SmartHomeCLI.notFoundError] ∧
      (a.handleOn name).manager = a.manager ∧ (a.handleOn name).invoker = a.invoker ∧
      (a.handleOn name).heap = a.heap) ∧
    (written a (a.handleOff name) = [SmartHomeCLI.errorText SmartHomeCLI.notFoundError] ∧
      (a.handleOff name).manager = a.manager ∧ (a.handleOff name).invoker = a.invoker ∧
      (a.handleOff name).heap = a.heap) ∧
    (a.invoker.history = [] →
      written (a.handleOn name) (CommandInvoker.undo (a.handleOn name)) = [undoInfo] ∧
      written (a.handleOff name) (CommandInvoker.undo (a.handleOff name)) = [undoInfo]) := by
  have hnone : a.manager.getDevice name = none := by
    simpa [DeviceManager.exists_, DeviceManager.getDevice] using hnot
  have hon : a.handleOn name = a.printError SmartHomeCLI.notFoundError := by
    simp [SmartHomeCLI.handleOn, hnone]
  have hoff : a.handleOff name = a.printError SmartHomeCLI.notFoundError := by
    simp [SmartHomeCLI.handleOff, hnone]
  have hw : written a (a.printError SmartHomeCLI.notFoundError) =
      [SmartHomeCLI.errorText SmartHomeCLI.notFoundError] := by
    simp [written, SmartHomeCLI.printError]
  rw [hon, hoff]
  refine ⟨⟨hw, rfl, rfl, rfl⟩, ⟨hw, rfl, rfl, rfl⟩, ?_⟩
  intro hempty
  have : written (a.printError SmartHomeCLI.notFoundError)
      (CommandInvoker.undo (a.printError SmartHomeCLI.notFoundError)) = [undoInfo] := by
    rw [undo_of_empty (a.printError SmartHomeCLI.notFoundError) hempty]
    simp [written, SmartHomeCLI.printError]
  exact ⟨this, this⟩

/-- Instance of C7: `on nonexistent` in a fresh session, followed by `undo`. -/
theorem handleOn_handleOff_not_found_witness :
    Session.fresh.app.manager.exists_ "nonexistent" = false ∧
    Session.fresh.app.invoker.history = [] ∧
    written (Session.fresh.app.handleOn "nonexistent")
      (CommandInvoker.undo (Session.fresh.app.handleOn "nonexistent")) = [undoInfo] :=
  ⟨by decide, by decide,
    ((handleOn_handleOff_not_found Session.fresh.app "nonexistent" (by decide)).2.2
      (by decide)).1⟩

/-! ## Lines with missing tokens -/

/-- An empty line is skipped: only the prompt is written. -/
theorem processLine_empty (s : Session) :
    s.processLine "" = ({ s.prompt with line := "" }, false) := by
  rfl

/-- A line of whitespace only fills none of `cmd`, `arg1`, `arg2`. -/
theorem readTokens_blank (s : Session) (hws : ∀ c ∈ s.line.data, isspace c = true) :
    s.readTokens = s := by
  have h1 := extract_blank s.line.data s.cmd hws
  simp only [Session.readTokens, IStream.ofString, h1]
  simp [extract_not_good]

/-- A non-empty line of whitespace only is not skipped: the command chain runs on the
`cmd`, `arg1` and `arg2` left by the lines before it. -/
theorem processLine_blank (s : Session) (l : String) (hne : l ≠ "")
    (hws : ∀ c ∈ l.data, isspace c = true) :
    s.processLine l = Session.route { s.prompt with line := l } := by
  simp only [Session.processLine, Session.dispatch, if_neg hne]
  rw [readTokens_blank _ hws]

/-- The line `on` without a name hands `handleOn` the `arg1` of an earlier line. -/
theorem processLine_on_alone (s : Session) :
    (s.processLine "on").1.app = s.prompt.app.handleOn s.arg1 := by
  rfl

/-- The line `add <type>` without a name hands `handleAdd` the `arg2` of an earlier line. -/
theorem processLine_add_alone (s : Session) (type : String) (htok : IsToken type) :
    (s.processLine ("add " ++ type)).1.app = s.prompt.app.handleAdd type s.arg2 := by
  have hne : ("add " ++ type) ≠ "" := by
    intro h
    have := congrArg String.data h
    simp at this
  have ht := readTokens_two { s.prompt with line := "add " ++ type } "add" type (by decide) htok rfl
  simp only [Session.processLine, Session.dispatch, if_neg hne, ht]
  rfl

/-- C9 (the code departs from the claim): after `add light Lamp` and `on Lamp`, the line
`on` with no argument does not report not-found; `arg1` still holds `Lamp`, the lamp is
switched on again and a second action is pushed.  After `add foo X`, the line `add light`
with no name does not report the format error; `arg2` still holds `X` and a light called
`X` is registered. -/
theorem missing_argument_keeps_old_value :
    (Session.fresh.run ["add light Lamp", "on Lamp", "on"]).arg1 = "Lamp" ∧
    written (Session.fresh.run ["add light Lamp", "on Lamp"]).app
      (Session.fresh.run ["add light Lamp", "on Lamp", "on"]).app =
      [promptText, (Device.new .Light "Lamp").turnOn.2] ∧
    written (Session.fresh.run ["add light Lamp", "on Lamp"]).app
      (Session.fresh.run ["add light Lamp", "on Lamp", "on"]).app ≠
      [promptText, SmartHomeCLI.errorText SmartHomeCLI.notFoundError] ∧
    (Session.fresh.run ["add light Lamp", "on Lamp"]).app.invoker.history =
      [.TurnOnCommand 0] ∧
    (Session.fresh.run ["add light Lamp", "on Lamp", "on"]).app.invoker.history =
      [.TurnOnCommand 0, .TurnOnCommand 0] ∧
    (Session.fresh.run ["add foo X"]).app.manager.exists_ "X" = false ∧
    (Session.fresh.run ["add foo X", "add light"]).arg2 = "X" ∧
    written (Session.fresh.run ["add foo X"]).app
      (Session.fresh.run ["add foo X", "add light"]).app =
      [promptText, SmartHomeCLI.addedMessage "X"] ∧
    written (Session.fresh.run ["add foo X"]).app
      (Session.fresh.run ["add foo X", "add light"]).app ≠
      [promptText, SmartHomeCLI.errorText SmartHomeCLI.formatError] ∧
    (Session.fresh.run ["add foo X", "add light"]).app.manager.devices = [("X", 0)] ∧
    (Session.fresh.run ["add foo X", "add light"]).app.heap =
      [{ cls := .Light, name := "X", isOn := false }] := by
  decide

/-- C10 (the code departs from the claim): after `add light Lamp`, `on Lamp`, `off Lamp`
and `undo` the lamp is on and the history holds one action; a following line made of one
blank is not ignored: `cmd` still holds `undo`, so a second undo runs, the lamp goes off
and the history becomes empty. -/
theorem blank_line_repeats_last_command :
    (Session.fresh.run ["add light Lamp", "on Lamp", "off Lamp", "undo"]).app.heap =
      [{ cls := .Light, name := "Lamp", isOn := true }] ∧
    (Session.fresh.run ["add light Lamp", "on Lamp", "off Lamp", "undo"]).app.invoker.history =
      [.TurnOnCommand 0] ∧
    (Session.fresh.run ["add light Lamp", "on Lamp", "off Lamp", "undo", " "]).cmd = "undo" ∧
    written (Session.fresh.run ["add light Lamp", "on Lamp", "off Lamp", "undo"]).app
      (Session.fresh.run ["add light Lamp", "on Lamp", "off Lamp", "undo", " "]).app =
      [promptText, undoBanner, (Device.new .Light "Lamp").turnOff.2] ∧
    (Session.fresh.run ["add light Lamp", "on Lamp", "off Lamp", "undo", " "]).app.heap =
      [{ cls := .Light, name := "Lamp", isOn := false }] ∧
    (Session.fresh.run ["add light Lamp", "on Lamp", "off Lamp", "undo", " "]).app.invoker.history =
      [] ∧
    (Session.fresh.run ["add light Lamp", "on Lamp", "off Lamp", "undo", " "]).app.heap ≠
      (Session.fresh.run ["add light Lamp", "on Lamp", "off Lamp", "undo"]).app.heap ∧
    (Session.fresh.run ["add light Lamp", "on Lamp", "off Lamp", "undo", " "]).app.invoker ≠
      (Session.fresh.run ["add light Lamp", "on Lamp", "off Lamp", "undo"]).app.invoker := by
  decide

/-! ## Leaving the loop -/

/-- Extracting twice from the same stream state stores what the first extraction stored. -/
theorem extract_idem (is : IStream) (str : String) :
    (is.extract (is.extract str).2).2 = (is.extract str).2 := by
  unfold IStream.extract
  split
  · split <;> rfl
  · rfl

/-- The command chain touches only the session object; it asks for `break` exactly when
`cmd` is `exit`. -/
theorem route_frame (t : Session) :
    t.route.1.cin = t.cin ∧ t.route.1.line = t.line ∧ t.route.1.cmd = t.cmd ∧
    t.route.1.arg1 = t.arg1 ∧ t.route.1.arg2 = t.arg2 ∧ (t.route.2 = true ↔ t.cmd = "exit") := by
  unfold Session.route
  by_cases h1 : t.cmd = "exit"
  · simp [h1]
  · simp only [if_neg h1]
    split_ifs <;> simp [h1]

theorem readTokens_frame (s : Session) :
    s.readTokens.cin = s.cin ∧ s.readTokens.line = s.line ∧ s.readTokens.app = s.app := by
  simp [Session.readTokens]

/-- The body leaves the loop only with `cmd` equal to `exit`. -/
theorem dispatch_break (s : Session) (h : s.dispatch.2 = true) : s.dispatch.1.cmd = "exit" := by
  unfold Session.dispatch at h ⊢
  split at h
  · simp at h
  · next hne =>
    simp only [if_neg hne]
    rw [(route_frame _).2.2.1]
    exact (route_frame _).2.2.2.2.2.mp h

/-- Whenever `start()` returns, the last command word was `exit`: there is no other way
out of the loop. -/
theorem loop_some_exit (fuel : Nat) (s r : Session) (h : Session.loop fuel s = some r) :
    r.cmd = "exit" := by
  induction fuel generalizing s with
  | zero => simp [Session.loop] at h
  | succ n ih =>
    simp only [Session.loop] at h
    split at h
    · next hb =>
      cases h
      exact dispatch_break _ hb
    · exact ih _ h

/-- On a stream that is no longer good `std::getline` reads nothing, so the iteration
works on the old `line`. -/
theorem iteration_not_good (s : Session) (hg : s.cin.good = false) :
    s.iteration = s.prompt.dispatch := by
  simp [Session.iteration, getline, Session.prompt, hg]

/-- Once `std::cin` is no longer good and the line left in `line` is empty or does not
yield the command word `exit`, no number of iterations leaves the loop. -/
theorem loop_none_at_eof (fuel : Nat) (s : Session) (hg : s.cin.good = false)
    (hl : s.line = "" ∨ s.readTokens.cmd ≠ "exit") : Session.loop fuel s = none := by
  induction fuel generalizing s with
  | zero => rfl
  | succ n ih =>
    simp only [Session.loop, iteration_not_good s hg]
    by_cases he : s.line = ""
    · have hd : s.prompt.dispatch = (s.prompt, false) := by
        simp [Session.dispatch, Session.prompt, he]
      rw [hd]
      simp only [Bool.false_eq_true, if_false]
      exact ih _ hg (Or.inl he)
    · have hc : s.readTokens.cmd ≠ "exit" := by
        rcases hl with hl | hl
        · exact absurd hl he
        · exact hl
      have hd : s.prompt.dispatch = s.prompt.readTokens.route := by
        simp [Session.dispatch, Session.prompt, he]
      have hcmd : s.prompt.readTokens.cmd = s.readTokens.cmd := rfl
      have hfr := route_frame s.prompt.readTokens
      have hnb : s.prompt.readTokens.route.2 = false := by
        cases hb : s.prompt.readTokens.route.2
        · rfl
        · exact absurd (hfr.2.2.2.2.2.mp hb) (by rw [hcmd]; exact hc)
      rw [hd, hnb]
      simp only [Bool.false_eq_true, if_false]
      refine ih _ ?_ (Or.inr ?_)
      · rw [hfr.1]; exact hg
      · have : s.prompt.readTokens.route.1.readTokens.cmd = s.readTokens.cmd := by
          have h1 : s.prompt.readTokens.route.1.readTokens.cmd =
              ((IStream.ofString s.prompt.readTokens.route.1.line).extract
                s.prompt.readTokens.route.1.cmd).2 := rfl
          rw [h1, hfr.2.1, hfr.2.2.1]
          exact extract_idem (IStream.ofString s.line) s.cmd
        rw [this]; exact hc

/-- If the first `n` iterations do not leave the loop, the loop goes on from the state
they produce. -/
theorem loop_add (n fuel : Nat) (s : Session) (h : Session.loop n s = none) :
    Session.loop (n + fuel) s = Session.loop fuel (s.iterate n) := by
  induction n generalizing s with
  | zero => simp [Session.iterate]
  | succ n ih =>
    simp only [Session.loop] at h
    split at h
    · cases h
    · next hb =>
      rw [Nat.succ_add]
      simp only [Session.loop, Session.iterate, hb]
      exact ih _ h

theorem loop_none_mono (n m : Nat) (s : Session) (hle : m ≤ n) (h : Session.loop n s = none) :
    Session.loop m s = none := by
  induction n generalizing s m with
  | zero =>
    have : m = 0 := by omega
    subst this; rfl
  | succ n ih =>
    cases m with
    | zero => rfl
    | succ m =>
      simp only [Session.loop] at h ⊢
      split at h
      · cases h
      · next hb =>
        simp only [hb]
        exact ih m _ (by omega) h

/-- A session whose first `n` iterations do not leave the loop and end with `std::cin`
exhausted and no `exit` in `line` never leaves the loop. -/
theorem loop_none_of_stuck (n : Nat) (s : Session) (h : Session.loop n s = none)
    (hg : (s.iterate n).cin.good = false)
    (hl : (s.iterate n).line = "" ∨ (s.iterate n).readTokens.cmd ≠ "exit") (fuel : Nat) :
    Session.loop fuel s = none := by
  by_cases hle : fuel ≤ n
  · exact loop_none_mono n fuel s hle h
  · obtain ⟨k, rfl⟩ : ∃ k, fuel = n + k := ⟨fuel - n, by omega⟩
    rw [loop_add n k s h]
    exact loop_none_at_eof k _ hg hl

/-- A result found with some fuel is found with any larger fuel. -/
theorem loop_some_mono (n k : Nat) (s r : Session) (h : Session.loop n s = some r) :
    Session.loop (n + k) s = some r := by
  induction n generalizing s with
  | zero => simp [Session.loop] at h
  | succ n ih =>
    rw [Nat.succ_add]
    simp only [Session.loop] at h ⊢
    split at h
    · next hb => simp only [hb, if_true]; exact h
    · next hb => simp only [hb]; exact ih _ h
/-- The line `exit` leaves the loop. -/
theorem processLine_exit (s : Session) : (s.processLine "exit").2 = true := by
  rfl

/-- C11 (the code departs from the claim): the loop is `while (true)` and never looks at
the state of `std::cin`, so on a finite input without an `exit` line `start()` does not
return, whatever the number of iterations allowed.  On the input `status` + newline the
loop spins on an empty `line`; on the input `add light Lamp` + newline + `on Lamp`
(no final newline) the last line stays in `line` and is dispatched again in every
iteration, so it is not processed exactly once: the history keeps growing. -/
theorem start_never_returns_without_exit :
    (∀ fuel, SmartHomeCLI.start fuel { buf := "status\n".data, good := true } = none) ∧
    (∀ fuel, SmartHomeCLI.start fuel
      { buf := "add light Lamp\non Lamp".data, good := true } = none) ∧
    ((Session.enter { buf := "add light Lamp\non Lamp".data, good := true }).iterate
      2).app.invoker.history = [.TurnOnCommand 0] ∧
    ((Session.enter { buf := "add light Lamp\non Lamp".data, good := true }).iterate
      5).app.invoker.history =
      [.TurnOnCommand 0, .TurnOnCommand 0, .TurnOnCommand 0, .TurnOnCommand 0] :=
  ⟨fun fuel => loop_none_of_stuck 2 _ (by decide) (by decide) (by decide) fuel,
   fun fuel => loop_none_of_stuck 2 _ (by decide) (by decide) (by decide) fuel,
   by decide, by decide⟩

/-- C12: on the input lines `add light Lamp`, `on Lamp`, `status`, `undo`, `status`,
`exit`, a new session returns from `start()` after six iterations (and with any larger
bound); the console then holds, in this order, the welcome text, the confirmation for
`Lamp`, the switch-on message, a status listing with the `[ON]` line of `Lamp`, the undo
messages and a status listing with the `[OFF]` line of `Lamp`, every text spelled out
character by character with the prompt before each line read; the history is empty and
`Lamp`, a light that is off, is the only registered device. -/
theorem scenario_add_on_status_undo_status_exit (k : Nat) :
    SmartHomeCLI.start (6 + k)
      { buf := "add light Lamp\non Lamp\nstatus\nundo\nstatus\nexit\n".data, good := true } =
      some ((Session.enter
        { buf := "add light Lamp\non Lamp\nstatus\nundo\nstatus\nexit\n".data,
          good := true }).iterate 6) ∧
    ((Session.enter
        { buf := "add light Lamp\non Lamp\nstatus\nundo\nstatus\nexit\n".data,
          good := true }).iterate 6).app =
      { heap := [{ cls := .Light, name := "Lamp", isOn := false }],
        manager := { devices := [("Lamp", 0)] },
        invoker := { history := [] },
        cout :=
          ["\x1b[1m=== SMART HOME CONTROL SYSTEM v2.0 (SOLID) ===\x1b[0m\n",
           "Введіть \x27help\x27 для списку команд.\n",
           "\x1b[1m> \x1b[0m",
           "\x1b[32m[OK] Пристрій \x27Lamp\x27 успішно додано.\x1b[0m\n",
           "\x1b[1m> \x1b[0m",
           "\x1b[33m>>> Лампа (Lamp) світить яскраво.\x1b[0m\n",
           "\x1b[1m> \x1b[0m",
           "\x1b[1m\n--- СТАТУС БУДИНКУ ---\x1b[0m\n",
           "Lamp\t: \x1b[32m[ON]\x1b[0m\n",
           "----------------------\n",
           "\x1b[1m> \x1b[0m",
           "\x1b[33m[UNDO] Відміна останньої дії...\x1b[0m\n",
           ">>> Лампа (Lamp) згасла.\n",
           "\x1b[1m> \x1b[0m",
           "\x1b[1m\n--- СТАТУС БУДИНКУ ---\x1b[0m\n",
           "Lamp\t: \x1b[31m[OFF]\x1b[0m\n",
           "----------------------\n",
           "\x1b[1m> \x1b[0m"] } :=
  ⟨loop_some_mono 6 k _ _ (by decide), by decide⟩

/-! ## The factory and the registry -/

/-- C13: `DeviceFactory::create(type, name)` returns a device exactly when `type` is
"light" or "ac" (compared character by character, so case matters); for "light" the new
object is a `Light`, for "ac" an `AirConditioner`, in both cases called `name` and off,
placed in a fresh cell while the old cells stay as they were; for every other type
string, among them "", "Light" and "AC", the result is the null pointer and nothing is
allocated. -/
theorem create_iff_known_type (h : Heap) (type name : String) :
    ((DeviceFactory.create h type name).2.isSome ↔ (type = "light" ∨ type = "ac")) ∧
    DeviceFactory.create h "light" name =
      (h ++ [{ cls := .Light, name := name, isOn := false }], some h.length) ∧
    DeviceFactory.create h "ac" name =
      (h ++ [{ cls := .AirConditioner, name := name, isOn := false }], some h.length) ∧
    (DeviceFactory.create h "light" name).1[h.length]? =
      some { cls := .Light, name := name, isOn := false } ∧
    (DeviceFactory.create h "ac" name).1[h.length]? =
      some { cls := .AirConditioner, name := name, isOn := false } ∧
    Device.getName { cls := .Light, name := name, isOn := false } = name ∧
    Device.getName { cls := .AirConditioner, name := name, isOn := false } = name ∧
    (∀ (q : Nat) (d : Device), h[q]? = some d →
      (DeviceFactory.create h type name).1[q]? = some d) ∧
    (¬ (type = "light" ∨ type = "ac") ↔ DeviceFactory.create h type name = (h, none)) ∧
    DeviceFactory.create h "" name = (h, none) ∧
    DeviceFactory.create h "Light" name = (h, none) ∧
    DeviceFactory.create h "AC" name = (h, none) := by
  refine ⟨?_, ?_, ?_, ?_, ?_, rfl, rfl, ?_, ?_, ?_, ?_, ?_⟩
  · by_cases h1 : type = "light"
    · simp [DeviceFactory.create, h1]
    · by_cases h2 : type = "ac"
      · simp [DeviceFactory.create, h2]
      · simp [DeviceFactory.create, h1, h2]
  · simp [DeviceFactory.create, Device.new]
  · simp [DeviceFactory.create, Device.new]
  · simp [DeviceFactory.create, Device.new]
  · simp [DeviceFactory.create, Device.new]
  · intro q d hq
    have hlt := cell_lt hq
    unfold DeviceFactory.create
    split_ifs
    · simp only []; rw [List.getElem?_append_left hlt]; exact hq
    · simp only []; rw [List.getElem?_append_left hlt]; exact hq
    · exact hq
  · by_cases h1 : type = "light"
    · simp [DeviceFactory.create, h1]
    · by_cases h2 : type = "ac"
      · simp [DeviceFactory.create, h2]
      · simp [DeviceFactory.create, h1, h2]
  · simp [DeviceFactory.create]
  · simp [DeviceFactory.create]
  · simp [DeviceFactory.create]

/-- C14: for every registry and every pointer `p` to a live device `d`, after
`addDevice(p)` the lookup of `d.getName()` returns `p` itself, whatever was stored under
that name before, `exists(d.getName())` is true, and for every other name `getDevice` and
`exists` return what they returned before; `addDevice(nullptr)` changes nothing. -/
theorem addDevice_lookup (m : DeviceManager) (h : Heap) (p : Nat) (d : Device)
    (hd : h[p]? = some d) :
    (m.addDevice h (some p)).getDevice d.getName = some p ∧
    (m.addDevice h (some p)).exists_ d.getName = true ∧
    (∀ other, other ≠ d.getName →
      (m.addDevice h (some p)).getDevice other = m.getDevice other ∧
      (m.addDevice h (some p)).exists_ other = m.exists_ other) ∧
    m.addDevice h none = m := by
  have ha : m.addDevice h (some p) = { devices := m.devices.assign d.getName p } := by
    simp [DeviceManager.addDevice, hd]
  rw [ha]
  refine ⟨find_assign_self _ _ _, ?_, ?_, rfl⟩
  · simp [DeviceManager.exists_, find_assign_self]
  · intro other hne
    have := find_assign_other m.devices d.getName other p hne
    simp [DeviceManager.getDevice, DeviceManager.exists_, this]

/-- Instance of C14: a second device called `Lamp` is added over the registered one;
the lookup of `Lamp` then returns the new object, the lookup of `Cooler` is unchanged. -/
theorem addDevice_lookup_witness :
    ([{ cls := .Light, name := "Lamp", isOn := true },
      { cls := .AirConditioner, name := "Cooler", isOn := false },
      { cls := .AirConditioner, name := "Lamp", isOn := false }] : Heap)[2]? =
      some { cls := .AirConditioner, name := "Lamp", isOn := false } ∧
    (DeviceManager.mk [("Cooler", 1), ("Lamp", 0)]).getDevice "Lamp" = some 0 ∧
    ((DeviceManager.mk [("Cooler", 1), ("Lamp", 0)]).addDevice
      [{ cls := .Light, name := "Lamp", isOn := true },
       { cls := .AirConditioner, name := "Cooler", isOn := false },
       { cls := .AirConditioner, name := "Lamp", isOn := false }] (some 2)).getDevice
        (Device.getName { cls := .AirConditioner, name := "Lamp", isOn := false }) = some 2 ∧
    "Cooler" ≠ Device.getName { cls := .AirConditioner, name := "Lamp", isOn := false } ∧
    ((DeviceManager.mk [("Cooler", 1), ("Lamp", 0)]).addDevice
      [{ cls := .Light, name := "Lamp", isOn := true },
       { cls := .AirConditioner, name := "Cooler", isOn := false },
       { cls := .AirConditioner, name := "Lamp", isOn := false }] (some 2)).getDevice "Cooler" =
      (DeviceManager.mk [("Cooler", 1), ("Lamp", 0)]).getDevice "Cooler" :=
  ⟨by decide, by decide,
    (addDevice_lookup (DeviceManager.mk [("Cooler", 1), ("Lamp", 0)])
      [{ cls := .Light, name := "Lamp", isOn := true },
       { cls := .AirConditioner, name := "Cooler", isOn := false },
       { cls := .AirConditioner, name := "Lamp", isOn := false }] 2
      { cls := .AirConditioner, name := "Lamp", isOn := false } (by decide)).1,
    by decide,
    ((addDevice_lookup (DeviceManager.mk [("Cooler", 1), ("Lamp", 0)])
      [{ cls := .Light, name := "Lamp", isOn := true },
       { cls := .AirConditioner, name := "Cooler", isOn := false },
       { cls := .AirConditioner, name := "Lamp", isOn := false }] 2
      { cls := .AirConditioner, name := "Lamp", isOn := false } (by decide)).2.2.1
        "Cooler" (by decide)).1⟩

/-! ## The status listing -/

/-- A name is found in the map exactly when it is one of its keys. -/
theorem find_isSome_iff (m : DeviceMap) (name : String) :
    (m.find name).isSome = true ↔ name ∈ m.map Prod.fst := by
  induction m with
  | nil => simp [DeviceMap.find]
  | cons e rest ih =>
    obtain ⟨k, v⟩ := e
    simp only [DeviceMap.find, List.map_cons, List.mem_cons]
    split
    · next hk => simp [hk]
    · next hk =>
      rw [ih]
      constructor
      · exact Or.inr
      · rintro (h | h)
        · exact absurd h.symm hk
        · exact h

/-- Strictly increasing keys are pairwise different. -/
theorem sorted_keys_nodup (m : DeviceMap) (h : m.Pairwise keyLess) :
    (m.map Prod.fst).Nodup := by
  rw [List.Nodup, List.pairwise_map]
  refine h.imp ?_
  intro x y hxy heq
  unfold keyLess at hxy
  rw [heq] at hxy
  exact lt_irrefl _ hxy

/-- The text of a pass of the status loop over an entry that points to a live device. -/
theorem statusLine_live (h : Heap) (e : String × Nat) (d : Device) (hd : h[e.2]? = some d) :
    statusLine h e = d.name ++ "\t: " ++
      (if d.isOn then Color.GREEN ++ "[ON]" ++ Color.RESET
       else Color.RED ++ "[OFF]" ++ Color.RESET) ++ "\n" := by
  simp [statusLine, hd, Device.getStatus]

/-- The placeholder is no status line. -/
theorem statusLine_ne_placeholder (h : Heap) (e : String × Nat) :
    statusLine h e ≠ "(немає пристроїв)\n" := by
  unfold statusLine
  split
  · decide
  · next d hd =>
    rw [getStatus_line]
    have hf := fixed_text_ne_line d.name "(немає пристроїв)\n" (Or.inr (Or.inr (Or.inl rfl)))
    split
    · exact fun h => hf.1 h.symm
    · exact fun h => hf.2 h.symm

/-- C15: for every well-formed session state, `showAllStatus` appends to the console its
header, then the no-devices placeholder if and only if the registry is empty, then one
line per registry entry in key order, then its footer.  The line of an entry is the
device's name, which is the entry's key, followed by "\t: " and the green "[ON]" when the
device is on, the red "[OFF]" when it is off.  The keys are pairwise different and are
exactly the registered names, so every registered device has exactly one line.  The
command changes nothing but the console. -/
theorem showAllStatus_lines (s : Session) (hwf : s.app.WF) :
    s.app.manager.showAllStatus s.app.heap s.app.cout =
      s.app.cout ++
        ([Color.BOLD ++ "\n--- СТАТУС БУДИНКУ ---" ++ Color.RESET ++ "\n"]
          ++ (if s.app.manager.devices = [] then ["(немає пристроїв)\n"] else [])
          ++ s.app.manager.devices.map (statusLine s.app.heap)
          ++ ["----------------------\n"]) ∧
    (∀ e ∈ s.app.manager.devices, ∃ d, s.app.heap[e.2]? = some d ∧ d.getName = e.1 ∧
      statusLine s.app.heap e = e.1 ++ "\t: " ++
        (if d.isOn then Color.GREEN ++ "[ON]" ++ Color.RESET
         else Color.RED ++ "[OFF]" ++ Color.RESET) ++ "\n") ∧
    (s.app.manager.devices.map (statusLine s.app.heap)).length = s.app.manager.devices.length ∧
    (s.app.manager.devices.map Prod.fst).Nodup ∧
    (∀ name, s.app.manager.exists_ name = true ↔ name ∈ s.app.manager.devices.map Prod.fst) ∧
    ("(немає пристроїв)\n" ∈ statusReport s.app.manager.devices s.app.heap ↔
      s.app.manager.devices = []) ∧
    (s.processLine "status").1.app.heap = s.app.heap ∧
    (s.processLine "status").1.app.manager = s.app.manager ∧
    (s.processLine "status").1.app.invoker = s.app.invoker ∧
    written s.app (s.processLine "status").1.app =
      promptText :: statusReport s.app.manager.devices s.app.heap := by
  refine ⟨?_, ?_, by simp, sorted_keys_nodup _ hwf.sorted, ?_, ?_, rfl, rfl, rfl,
    written_status s⟩
  · simp only [DeviceManager.showAllStatus, statusReport]
    cases s.app.manager.devices <;> simp
  · intro e he
    have := (hwf.entries e he).2
    simp only [Option.map_eq_some'] at this
    obtain ⟨d, hd, hn⟩ := this
    refine ⟨d, hd, hn, ?_⟩
    rw [statusLine_live _ e d hd, hn]
  · intro name
    exact find_isSome_iff _ name
  · constructor
    · intro hmem
      by_contra hne
      simp only [statusReport, List.mem_append, List.mem_singleton, List.mem_map] at hmem
      rcases hmem with ((h1 | h1) | ⟨e, _, h1⟩) | h1
      · exact absurd h1 (by decide)
      · cases hm : s.app.manager.devices with
        | nil => exact hne hm
        | cons x xs => simp [hm] at h1
      · exact statusLine_ne_placeholder _ e h1
      · exact absurd h1 (by decide)
    · intro hempty
      simp [statusReport, hempty]

/-- Instance of C15: a session with two devices, one on and one off. -/
theorem showAllStatus_lines_witness :
    (Session.fresh.run ["add light Lamp", "add ac Cooler", "on Cooler"]).app.WF ∧
    written (Session.fresh.run ["add light Lamp", "add ac Cooler", "on Cooler"]).app
      ((Session.fresh.run ["add light Lamp", "add ac Cooler", "on Cooler"]).processLine
        "status").1.app =
      promptText :: statusReport
        (Session.fresh.run ["add light Lamp", "add ac Cooler", "on Cooler"]).app.manager.devices
        (Session.fresh.run ["add light Lamp", "add ac Cooler", "on Cooler"]).app.heap ∧
    statusReport
        (Session.fresh.run ["add light Lamp", "add ac Cooler", "on Cooler"]).app.manager.devices
        (Session.fresh.run ["add light Lamp", "add ac Cooler", "on Cooler"]).app.heap =
      [Color.BOLD ++ "\n--- СТАТУС БУДИНКУ ---" ++ Color.RESET ++ "\n",
       onLine "Cooler", offLine "Lamp", "----------------------\n"] :=
  ⟨by decide,
    (showAllStatus_lines (Session.fresh.run ["add light Lamp", "add ac Cooler", "on Cooler"])
      (by decide)).2.2.2.2.2.2.2.2.2,
    by decide⟩

/-! ## The history -/

theorem route_on (t : Session) (h : t.cmd = "on") :
    t.route = ({ t with app := t.app.handleOn t.arg1 }, false) := by
  simp [Session.route, h]

theorem route_off (t : Session) (h : t.cmd = "off") :
    t.route = ({ t with app := t.app.handleOff t.arg1 }, false) := by
  simp [Session.route, h]

theorem route_undo (t : Session) (h : t.cmd = "undo") :
    t.route = ({ t with app := CommandInvoker.undo t.app }, false) := by
  simp [Session.route, h]

theorem route_add (t : Session) (h : t.cmd = "add") :
    t.route = ({ t with app := t.app.handleAdd t.arg1 t.arg2 }, false) := by
  simp [Session.route, h]

/-- `handleAdd` never touches the history. -/
theorem handleAdd_invoker (a : SmartHomeCLI) (type name : String) :
    (a.handleAdd type name).invoker = a.invoker := by
  unfold SmartHomeCLI.handleAdd
  split
  · rfl
  · split
    · rfl
    · rcases create_spec a.heap type name with ⟨hc, _, _⟩ | ⟨cls, hc, _⟩
      · simp only [hc]; rfl
      · simp only [hc]

/-- `handleOn` and `handleOff` on a registered name push one command bound to the device
the registry returns. -/
theorem handle_registered_history (a : SmartHomeCLI) (name : String) (p : Nat)
    (hf : a.manager.getDevice name = some p) :
    (a.handleOn name).invoker.history = .TurnOnCommand p :: a.invoker.history ∧
    (a.handleOff name).invoker.history = .TurnOffCommand p :: a.invoker.history := by
  simp [SmartHomeCLI.handleOn, SmartHomeCLI.handleOff, hf, CommandInvoker.executeCommand]

/-- `handleOn` and `handleOff` on a name that is not registered only write the error. -/
theorem handle_unregistered (a : SmartHomeCLI) (name : String)
    (hnot : a.manager.exists_ name = false) :
    a.handleOn name = a.printError SmartHomeCLI.notFoundError ∧
    a.handleOff name = a.printError SmartHomeCLI.notFoundError := by
  have hnone : a.manager.getDevice name = none := by
    simpa [DeviceManager.exists_, DeviceManager.getDevice] using hnot
  simp [SmartHomeCLI.handleOn, SmartHomeCLI.handleOff, hnone]

/-- `undo` removes the top of the history, if there is one. -/
theorem undo_history (a : SmartHomeCLI) :
    (CommandInvoker.undo a).invoker.history = a.invoker.history.tail := by
  unfold CommandInvoker.undo
  split
  · next h => simp [h]
  · next top rest h => simp [h]

/-- C16: for every session state the command chain changes the history as follows.
`on` and `off` with a registered name make it longer by exactly one, whatever the state
of the device, and the new top is the command bound to the device the registry returns;
`undo` on a non-empty history makes it shorter by exactly one, removing the top; `undo`
on an empty history, `on` and `off` with a name that is not registered, and every other
command word (`add`, `status`, `help`, `exit`, unknown words) leave it as it was. -/
theorem history_changes_by_command (t : Session) :
    (t.cmd = "on" → t.app.manager.exists_ t.arg1 = true →
      t.route.1.app.invoker.history.length = t.app.invoker.history.length + 1 ∧
      ∃ p, t.app.manager.getDevice t.arg1 = some p ∧
        t.route.1.app.invoker.history = .TurnOnCommand p :: t.app.invoker.history) ∧
    (t.cmd = "off" → t.app.manager.exists_ t.arg1 = true →
      t.route.1.app.invoker.history.length = t.app.invoker.history.length + 1 ∧
      ∃ p, t.app.manager.getDevice t.arg1 = some p ∧
        t.route.1.app.invoker.history = .TurnOffCommand p :: t.app.invoker.history) ∧
    (t.cmd = "undo" → t.app.invoker.history ≠ [] →
      t.route.1.app.invoker.history.length + 1 = t.app.invoker.history.length ∧
      t.route.1.app.invoker.history = t.app.invoker.history.tail) ∧
    (t.cmd = "undo" → t.app.invoker.history = [] → t.route.1.app.invoker.history = []) ∧
    (t.cmd = "on" ∨ t.cmd = "off" → t.app.manager.exists_ t.arg1 = false →
      t.route.1.app.invoker.history = t.app.invoker.history) ∧
    (t.cmd ≠ "on" → t.cmd ≠ "off" → t.cmd ≠ "undo" →
      t.route.1.app.invoker.history = t.app.invoker.history) := by
  refine ⟨?_, ?_, ?_, ?_, ?_, ?_⟩
  · intro hc hreg
    obtain ⟨p, hp⟩ := Option.isSome_iff_exists.mp hreg
    have := (handle_registered_history t.app t.arg1 p hp).1
    rw [route_on t hc]
    exact ⟨by simp [this], p, hp, this⟩
  · intro hc hreg
    obtain ⟨p, hp⟩ := Option.isSome_iff_exists.mp hreg
    have := (handle_registered_history t.app t.arg1 p hp).2
    rw [route_off t hc]
    exact ⟨by simp [this], p, hp, this⟩
  · intro hc hne
    rw [route_undo t hc]
    simp only [undo_history]
    cases hh : t.app.invoker.history with
    | nil => exact absurd hh hne
    | cons c rest => simp
  · intro hc hempty
    rw [route_undo t hc]
    simp [undo_history, hempty]
  · intro hc hnot
    have h := handle_unregistered t.app t.arg1 hnot
    rcases hc with hc | hc
    · rw [route_on t hc]; simp only [h.1]; rfl
    · rw [route_off t hc]; simp only [h.2]; rfl
  · intro h1 h2 h3
    unfold Session.route
    split_ifs
    · rfl
    · rfl
    · rfl
    · exact congrArg CommandInvoker.history (handleAdd_invoker t.app t.arg1 t.arg2)
    · rfl

/-- Instance of C16: `on Lamp` a second time, with the lamp already on. -/
theorem history_changes_by_command_witness :
    (Session.fresh.run ["add light Lamp", "on Lamp"]).cmd = "on" ∧
    (Session.fresh.run ["add light Lamp", "on Lamp"]).app.manager.exists_
      (Session.fresh.run ["add light Lamp", "on Lamp"]).arg1 = true ∧
    (Session.fresh.run ["add light Lamp", "on Lamp"]).app.heap.map Device.isOn = [true] ∧
    (Session.fresh.run ["add light Lamp", "on Lamp"]).route.1.app.invoker.history.length =
      (Session.fresh.run ["add light Lamp", "on Lamp"]).app.invoker.history.length + 1 :=
  ⟨by decide, by decide, by decide,
    ((history_changes_by_command (Session.fresh.run ["add light Lamp", "on Lamp"])).1
      (by decide) (by decide)).1⟩

/-! ## Undo is last-in-first-out -/

theorem executeAll_history (a : SmartHomeCLI) (cs : List ICommand) :
    (CommandInvoker.executeAll a cs).invoker.history = cs.reverse ++ a.invoker.history := by
  induction cs generalizing a with
  | nil => rfl
  | cons c cs ih =>
    simp only [CommandInvoker.executeAll, ih, List.reverse_cons, List.append_assoc]
    rfl

theorem executeAll_manager (a : SmartHomeCLI) (cs : List ICommand) :
    (CommandInvoker.executeAll a cs).manager = a.manager := by
  induction cs generalizing a with
  | nil => rfl
  | cons c cs ih => simp only [CommandInvoker.executeAll, ih]; rfl

/-- One `undo` on a non-empty history is the inverse transition of its top. -/
theorem undo_cons (b : SmartHomeCLI) (c : ICommand) (rest : List ICommand)
    (hh : b.invoker.history = c :: rest) :
    CommandInvoker.undo b =
      { b with heap := (inverseTransition (b.heap, b.cout) c).1,
               cout := (inverseTransition (b.heap, b.cout) c).2,
               invoker := { history := rest } } := by
  cases c <;> simp [CommandInvoker.undo, hh, ICommand.undo, inverseTransition]

/-- As many `undo`s as a prefix of the history is long apply the inverse transitions of
that prefix, top first, and leave the rest of the history. -/
theorem undoTimes_prefix (l rest : List ICommand) (b : SmartHomeCLI)
    (hh : b.invoker.history = l ++ rest) :
    CommandInvoker.undoTimes l.length b =
      { b with heap := (inverseTransitions (b.heap, b.cout) l).1,
               cout := (inverseTransitions (b.heap, b.cout) l).2,
               invoker := { history := rest } } := by
  induction l generalizing b with
  | nil =>
    simp only [List.nil_append] at hh
    simp [CommandInvoker.undoTimes, inverseTransitions, ← hh]
  | cons c l ih =>
    simp only [List.length_cons, CommandInvoker.undoTimes]
    rw [undo_cons b c (l ++ rest) hh]
    rw [ih _ rfl]
    simp [inverseTransitions]

/-- C17: for every session state and every sequence of actions `a1 .. ak` run through
`executeCommand`, the following `k` calls of `undo` apply the inverse transitions of
`ak`, then `a(k-1)`, ..., then `a1` (`turnOff` on the target of a TurnOn action, `turnOn`
on the target of a TurnOff action), each to the device its action is bound to, and leave
the history and the registry exactly as they were before `a1` was run. -/
theorem undo_is_last_in_first_out (a : SmartHomeCLI) (cs : List ICommand) :
    CommandInvoker.undoTimes cs.length (CommandInvoker.executeAll a cs) =
      { heap := (inverseTransitions ((CommandInvoker.executeAll a cs).heap,
                  (CommandInvoker.executeAll a cs).cout) cs.reverse).1,
        cout := (inverseTransitions ((CommandInvoker.executeAll a cs).heap,
                  (CommandInvoker.executeAll a cs).cout) cs.reverse).2,
        manager := a.manager,
        invoker := a.invoker } := by
  have h := undoTimes_prefix cs.reverse a.invoker.history (CommandInvoker.executeAll a cs)
    (executeAll_history a cs)
  rw [List.length_reverse] at h
  rw [h, executeAll_manager]

/-- An instance: `on Lamp`, `off Cooler`, `on Cooler` run and then undone; the three
undos switch the cooler off, the cooler on and the lamp off, in this order. -/
theorem three_undos_in_reverse_order :
    (Session.fresh.run ["add light Lamp", "add ac Cooler"]).app.manager.devices =
      [("Cooler", 1), ("Lamp", 0)] ∧
    written
      (CommandInvoker.executeAll (Session.fresh.run ["add light Lamp", "add ac Cooler"]).app
        [.TurnOnCommand 0, .TurnOffCommand 1, .TurnOnCommand 1])
      (CommandInvoker.undoTimes 3
        (CommandInvoker.executeAll (Session.fresh.run ["add light Lamp", "add ac Cooler"]).app
          [.TurnOnCommand 0, .TurnOffCommand 1, .TurnOnCommand 1])) =
      [undoBanner, (Device.new .AirConditioner "Cooler").turnOff.2,
       undoBanner, (Device.new .AirConditioner "Cooler").turnOn.2,
       undoBanner, (Device.new .Light "Lamp").turnOff.2] ∧
    (CommandInvoker.undoTimes 3
        (CommandInvoker.executeAll (Session.fresh.run ["add light Lamp", "add ac Cooler"]).app
          [.TurnOnCommand 0, .TurnOffCommand 1, .TurnOnCommand 1])).invoker.history = [] := by
  decide

/-! ## What an action touches -/

/-- `turnOn` through a pointer leaves every other cell alone and keeps the class and the
name in every cell. -/
theorem heap_turnOn_frame (h : Heap) (cout : List String) (p q : Nat) :
    (q ≠ p → (h.turnOn cout p).1[q]? = h[q]?) ∧
    ((h.turnOn cout p).1[q]?).map (fun d => (d.cls, d.name)) =
      (h[q]?).map (fun d => (d.cls, d.name)) := by
  unfold Heap.turnOn
  split
  · exact ⟨fun _ => rfl, rfl⟩
  · next d hd =>
    have hlt := cell_lt hd
    constructor
    · intro hne
      simp [List.getElem?_set_ne (Ne.symm hne)]
    · by_cases hq : p = q
      · subst hq; simp [hlt, hd, turnOn_fst]
      · simp [List.getElem?_set_ne hq]

/-- `turnOff` through a pointer leaves every other cell alone and keeps the class and the
name in every cell. -/
theorem heap_turnOff_frame (h : Heap) (cout : List String) (p q : Nat) :
    (q ≠ p → (h.turnOff cout p).1[q]? = h[q]?) ∧
    ((h.turnOff cout p).1[q]?).map (fun d => (d.cls, d.name)) =
      (h[q]?).map (fun d => (d.cls, d.name)) := by
  unfold Heap.turnOff
  split
  · exact ⟨fun _ => rfl, rfl⟩
  · next d hd =>
    have hlt := cell_lt hd
    constructor
    · intro hne
      simp [List.getElem?_set_ne (Ne.symm hne)]
    · by_cases hq : p = q
      · subst hq; simp [hlt, hd, turnOff_fst]
      · simp [List.getElem?_set_ne hq]

theorem execute_frame (c : ICommand) (h : Heap) (cout : List String) (q : Nat) :
    (q ≠ c.device → (c.execute h cout).1[q]? = h[q]?) ∧
    ((c.execute h cout).1[q]?).map (fun d => (d.cls, d.name)) =
      (h[q]?).map (fun d => (d.cls, d.name)) := by
  cases c
  · exact heap_turnOn_frame h cout _ q
  · exact heap_turnOff_frame h cout _ q

theorem undo_frame (c : ICommand) (h : Heap) (cout : List String) (q : Nat) :
    (q ≠ c.device → (c.undo h cout).1[q]? = h[q]?) ∧
    ((c.undo h cout).1[q]?).map (fun d => (d.cls, d.name)) =
      (h[q]?).map (fun d => (d.cls, d.name)) := by
  cases c
  · exact heap_turnOff_frame h cout _ q
  · exact heap_turnOn_frame h cout _ q

/-- `CommandInvoker::undo` keeps the registry, the number of cells, and the class and
name in every cell. -/
theorem invoker_undo_frame (a : SmartHomeCLI) (q : Nat) :
    (CommandInvoker.undo a).manager = a.manager ∧
    (CommandInvoker.undo a).heap.length = a.heap.length ∧
    ((CommandInvoker.undo a).heap[q]?).map (fun d => (d.cls, d.name)) =
      (a.heap[q]?).map (fun d => (d.cls, d.name)) := by
  unfold CommandInvoker.undo
  split
  · exact ⟨rfl, rfl, rfl⟩
  · next top rest hh => exact ⟨rfl, undo_length top _ _, (undo_frame top _ _ q).2⟩

/-- `CommandInvoker::executeCommand` keeps the registry, the number of cells, and the
class and name in every cell. -/
theorem invoker_execute_frame (a : SmartHomeCLI) (c : ICommand) (q : Nat) :
    (CommandInvoker.executeCommand a c).manager = a.manager ∧
    (CommandInvoker.executeCommand a c).heap.length = a.heap.length ∧
    ((CommandInvoker.executeCommand a c).heap[q]?).map (fun d => (d.cls, d.name)) =
      (a.heap[q]?).map (fun d => (d.cls, d.name)) :=
  ⟨rfl, execute_length c _ _, (execute_frame c _ _ q).2⟩

/-- C18: for every session state and every action `c` with target `c.device`: executing
`c` through `executeCommand`, and undoing it through `undo` when it is the top of the
history, leaves the registry (hence the set of registered names) and the number of
devices as they were, leaves every device other than the target exactly as it was
(class, name and on/off state), and leaves the class and the name of the target as they
were. -/
theorem action_touches_one_flag (a : SmartHomeCLI) (c : ICommand) (rest : List ICommand) :
    ((CommandInvoker.executeCommand a c).manager = a.manager ∧
      (CommandInvoker.executeCommand a c).heap.length = a.heap.length ∧
      (∀ q : Nat, q ≠ c.device → (CommandInvoker.executeCommand a c).heap[q]? = a.heap[q]?) ∧
      ((CommandInvoker.executeCommand a c).heap[c.device]?).map (fun d => (d.cls, d.name)) =
        (a.heap[c.device]?).map (fun d => (d.cls, d.name))) ∧
    ((CommandInvoker.undo { a with invoker := { history := c :: rest } }).manager = a.manager ∧
      (CommandInvoker.undo { a with invoker := { history := c :: rest } }).heap.length =
        a.heap.length ∧
      (∀ q : Nat, q ≠ c.device →
        (CommandInvoker.undo { a with invoker := { history := c :: rest } }).heap[q]? =
          a.heap[q]?) ∧
      ((CommandInvoker.undo { a with invoker := { history := c :: rest } }).heap[c.device]?).map
          (fun d => (d.cls, d.name)) =
        (a.heap[c.device]?).map (fun d => (d.cls, d.name))) := by
  refine ⟨⟨rfl, execute_length c _ _, fun q hq => (execute_frame c _ _ q).1 hq,
    (execute_frame c _ _ _).2⟩, ⟨rfl, ?_, ?_, ?_⟩⟩
  · simp only [CommandInvoker.undo]; exact undo_length c _ _
  · intro q hq
    simp only [CommandInvoker.undo]
    exact (undo_frame c _ _ q).1 hq
  · simp only [CommandInvoker.undo]
    exact (undo_frame c _ _ _).2

/-! ## The registry over a session -/

/-- The outcomes of `handleAdd`: one of its three errors and nothing else, or a new
device under a name that was free. -/
theorem handleAdd_cases (a : SmartHomeCLI) (type name : String) :
    (∃ msg, a.handleAdd type name = a.printError msg) ∨
    (name ≠ "" ∧ a.manager.exists_ name = false ∧ ∃ cls,
      a.handleAdd type name =
        { a with heap := a.heap ++ [Device.new cls name],
                 manager := { devices := a.manager.devices.assign name a.heap.length },
                 cout := a.cout ++ [SmartHomeCLI.addedMessage name] }) := by
  by_cases h1 : type = "" ∨ name = ""
  · left; exact ⟨SmartHomeCLI.formatError, by simp only [SmartHomeCLI.handleAdd, if_pos h1]⟩
  · by_cases h2 : a.manager.exists_ name = true
    · left
      exact ⟨SmartHomeCLI.conflictError,
        by simp only [SmartHomeCLI.handleAdd, if_neg h1, if_pos h2]⟩
    · have hname : name ≠ "" := fun h => h1 (Or.inr h)
      have hnew : a.manager.exists_ name = false := by simpa using h2
      rcases create_spec a.heap type name with ⟨hc, hl, hac⟩ | ⟨cls, _, hcls⟩
      · left
        exact ⟨SmartHomeCLI.unknownTypeError,
          by simp only [SmartHomeCLI.handleAdd, if_neg h1, if_neg h2, hc]⟩
      · right
        exact ⟨hname, hnew, cls, handleAdd_created a type name cls hcls hname hnew⟩

/-- A pointer the registry holds is found by the lookup of its key. -/
theorem mem_find {m : DeviceMap} {k : String} {p : Nat} (hs : m.Pairwise keyLess)
    (hmem : (k, p) ∈ m) : m.find k = some p := by
  have hsome : (m.find k).isSome = true := by
    rw [find_isSome_iff]; exact List.mem_map.mpr ⟨(k, p), hmem, rfl⟩
  obtain ⟨q, hq⟩ := Option.isSome_iff_exists.mp hsome
  rw [hq, sorted_unique hs (find_mem hq) hmem]

/-- What one pass of the command chain can do to the registry of a well-formed session:
every registered name keeps its pointer and the device behind it keeps class and name;
the registry itself is unchanged unless the command is a successful `add`, which inserts
one name that was free. -/
theorem route_registry (t : Session) (hwf : t.app.WF) :
    (∀ name p, t.app.manager.getDevice name = some p →
      t.route.1.app.manager.getDevice name = some p ∧
      (t.route.1.app.heap[p]?).map (fun d => (d.cls, d.name)) =
        (t.app.heap[p]?).map (fun d => (d.cls, d.name))) ∧
    (t.route.1.app.manager = t.app.manager ∨
      (t.cmd = "add" ∧ t.arg2 ≠ "" ∧ t.app.manager.exists_ t.arg2 = false ∧
        t.route.1.app.manager.devices = t.app.manager.devices.assign t.arg2 t.app.heap.length ∧
        t.route.1.app.cout = t.app.cout ++ [SmartHomeCLI.addedMessage t.arg2])) := by
  have same : ∀ b : SmartHomeCLI, b.manager = t.app.manager →
      (∀ q : Nat, (b.heap[q]?).map (fun d => (d.cls, d.name)) =
        (t.app.heap[q]?).map (fun d => (d.cls, d.name))) →
      (∀ name p, t.app.manager.getDevice name = some p →
        b.manager.getDevice name = some p ∧
        (b.heap[p]?).map (fun d => (d.cls, d.name)) =
          (t.app.heap[p]?).map (fun d => (d.cls, d.name))) ∧
      (b.manager = t.app.manager ∨
        (t.cmd = "add" ∧ t.arg2 ≠ "" ∧ t.app.manager.exists_ t.arg2 = false ∧
          b.manager.devices = t.app.manager.devices.assign t.arg2 t.app.heap.length ∧
          b.cout = t.app.cout ++ [SmartHomeCLI.addedMessage t.arg2])) := by
    intro b hm hh
    exact ⟨fun name p hf => ⟨by rw [hm]; exact hf, hh p⟩, Or.inl hm⟩
  unfold Session.route
  split_ifs with h1 h2 h3 h4 h5 h6 h7
  · exact same _ rfl (fun _ => rfl)
  · exact same _ rfl (fun _ => rfl)
  · exact same _ rfl (fun _ => rfl)
  · exact same _ (invoker_undo_frame t.app 0).1 (fun q => (invoker_undo_frame t.app q).2.2)
  · rcases handleAdd_cases t.app t.arg1 t.arg2 with ⟨msg, hm⟩ | ⟨hname, hnew, cls, hm⟩
    · rw [hm]
      exact same _ rfl (fun _ => rfl)
    · rw [hm]
      refine ⟨?_, Or.inr ⟨h5, hname, hnew, rfl, rfl⟩⟩
      intro name p hf
      have hne : name ≠ t.arg2 := by
        intro heq
        rw [heq] at hf
        simp [DeviceManager.exists_, DeviceManager.getDevice] at hnew hf
        rw [hnew] at hf
        cases hf
      have hlt := getDevice_lt t.app name p hwf hf
      constructor
      · simp only [DeviceManager.getDevice]
        rw [find_assign_other _ _ _ _ hne]
        exact hf
      · show ((t.app.heap ++ [Device.new cls t.arg2])[p]?).map (fun d => (d.cls, d.name)) =
          (t.app.heap[p]?).map (fun d => (d.cls, d.name))
        rw [List.getElem?_append_left hlt]
  · unfold SmartHomeCLI.handleOn
    split
    · exact same _ (invoker_execute_frame t.app _ 0).1
        (fun q => (invoker_execute_frame t.app _ q).2.2)
    · exact same _ rfl (fun _ => rfl)
  · unfold SmartHomeCLI.handleOff
    split
    · exact same _ (invoker_execute_frame t.app _ 0).1
        (fun q => (invoker_execute_frame t.app _ q).2.2)
    · exact same _ rfl (fun _ => rfl)
  · exact same _ rfl (fun _ => rfl)

/-- C19: for every well-formed session state (every reachable state is one) and every
input line: each name registered before the line is still registered after it, with the
same pointer, and the device behind the pointer has the class and the name it had; the
registry is left exactly as it was unless the line is a successful `add`, which writes
its confirmation and makes exactly one name registered that was not. -/
theorem registry_never_loses_a_device (s : Session) (l : String) (hwf : s.app.WF) :
    (∀ name p, s.app.manager.getDevice name = some p →
      (s.processLine l).1.app.manager.getDevice name = some p ∧
      ((s.processLine l).1.app.heap[p]?).map (fun d => (d.cls, d.name)) =
        (s.app.heap[p]?).map (fun d => (d.cls, d.name))) ∧
    ((s.processLine l).1.app.manager = s.app.manager ∨
      ∃ name, (s.processLine l).1.cmd = "add" ∧ name ≠ "" ∧
        s.app.manager.exists_ name = false ∧
        written s.app (s.processLine l).1.app = [promptText, SmartHomeCLI.addedMessage name] ∧
        ∀ n, (s.processLine l).1.app.manager.exists_ n = true ↔
          (n = name ∨ s.app.manager.exists_ n = true)) := by
  unfold Session.processLine Session.dispatch
  split
  · exact ⟨fun name p hf => ⟨hf, rfl⟩, Or.inl rfl⟩
  · have hwf' : (Session.readTokens { s.prompt with line := l }).app.WF := WF_cout _ _ hwf
    have hr := route_registry (Session.readTokens { s.prompt with line := l }) hwf'
    refine ⟨hr.1, ?_⟩
    rcases hr.2 with hm | ⟨hcmd, hname, hnew, hdev, hcout⟩
    · exact Or.inl hm
    · refine Or.inr ⟨_, ?_, hname, hnew, ?_, ?_⟩
      · rw [(route_frame _).2.2.1]; exact hcmd
      · simp only [written, hcout]
        simp [Session.readTokens, Session.prompt]
      · intro n
        simp only [DeviceManager.exists_, hdev]
        by_cases hn : n = (Session.readTokens { s.prompt with line := l }).arg2
        · subst hn
          simp [find_assign_self]
        · rw [find_assign_other _ _ _ _ hn]
          simp only [hn, false_or]
          rfl

/-- Instance of C19: the line `add ac Cooler` in a session that holds a lamp that is on. -/
theorem registry_never_loses_a_device_witness :
    (Session.fresh.run ["add light Lamp", "on Lamp"]).app.WF ∧
    (Session.fresh.run ["add light Lamp", "on Lamp"]).app.manager.getDevice "Lamp" = some 0 ∧
    ((Session.fresh.run ["add light Lamp", "on Lamp"]).processLine
      "add ac Cooler").1.app.manager.getDevice "Lamp" = some 0 ∧
    ((Session.fresh.run ["add light Lamp", "on Lamp"]).processLine
      "add ac Cooler").1.app.manager.devices = [("Cooler", 1), ("Lamp", 0)] :=
  ⟨by decide, by decide,
    ((registry_never_loses_a_device (Session.fresh.run ["add light Lamp", "on Lamp"])
      "add ac Cooler" (by decide)).1 "Lamp" 0 (by decide)).1,
    by decide⟩

/-! ## The history refers to registered devices -/

/-- A command in the history after one pass of the command chain was there before, or is
bound to the device the registry returned for `arg1`. -/
theorem route_history_mem (t : Session) (c : ICommand)
    (hc : c ∈ t.route.1.app.invoker.history) :
    c ∈ t.app.invoker.history ∨ t.app.manager.getDevice t.arg1 = some c.device := by
  unfold Session.route at hc
  split_ifs at hc with h1 h2 h3 h4 h5 h6 h7
  · exact Or.inl hc
  · exact Or.inl hc
  · exact Or.inl hc
  · simp only [undo_history] at hc
    exact Or.inl (List.mem_of_mem_tail hc)
  · simp only [handleAdd_invoker] at hc
    exact Or.inl hc
  · cases hf : t.app.manager.getDevice t.arg1 with
    | none =>
      simp only [SmartHomeCLI.handleOn, hf] at hc
      exact Or.inl hc
    | some p =>
      simp only [(handle_registered_history t.app t.arg1 p hf).1, List.mem_cons] at hc
      rcases hc with rfl | hc
      · exact Or.inr rfl
      · exact Or.inl hc
  · cases hf : t.app.manager.getDevice t.arg1 with
    | none =>
      simp only [SmartHomeCLI.handleOff, hf] at hc
      exact Or.inl hc
    | some p =>
      simp only [(handle_registered_history t.app t.arg1 p hf).2, List.mem_cons] at hc
      rcases hc with rfl | hc
      · exact Or.inr rfl
      · exact Or.inl hc
  · exact Or.inl hc

/-- One pass of the command chain keeps every action of the history bound to a
registered device. -/
theorem Bound_route (t : Session) (hwf : t.app.WF) (hb : t.app.Bound) : t.route.1.app.Bound := by
  intro c hc
  have hreg := (route_registry t hwf).1
  have key : ∀ (name : String) (p : Nat) (d : Device), t.app.manager.getDevice name = some p →
      t.app.heap[p]? = some d → d.name = name →
      ∃ d', t.route.1.app.heap[p]? = some d' ∧
        t.route.1.app.manager.getDevice d'.getName = some p := by
    intro name p d hf hd hn
    obtain ⟨hf', hcell⟩ := hreg name p hf
    rw [hd] at hcell
    simp only [Option.map_some', Option.map_eq_some'] at hcell
    obtain ⟨d', hd', hcn⟩ := hcell
    have : d'.name = name := by rw [← hn]; exact (Prod.mk.inj hcn).2
    exact ⟨d', hd', by rw [Device.getName, this]; exact hf'⟩
  rcases route_history_mem t c hc with hold | hnew
  · obtain ⟨d, hd, hf⟩ := hb c hold
    exact key d.getName c.device d hf hd rfl
  · have := (hwf.entries _ (find_mem hnew)).2
    simp only [Option.map_eq_some'] at this
    obtain ⟨d, hd, hn⟩ := this
    exact key t.arg1 c.device d hnew hd hn

/-- The loop invariant survives the loop body, whatever `line` holds. -/
theorem Inv_dispatch (s : Session) (h : s.Inv) : s.dispatch.1.Inv := by
  unfold Session.dispatch
  split
  · exact h
  · exact Inv_route _ (Inv_readTokens _ h)

theorem Bound_dispatch (s : Session) (hwf : s.app.WF) (hb : s.app.Bound) :
    s.dispatch.1.app.Bound := by
  unfold Session.dispatch
  split
  · exact hb
  · exact Bound_route s.readTokens hwf hb

/-- The loop invariant and the binding of the history survive an iteration that reads
from `std::cin`. -/
theorem Inv_Bound_iteration (s : Session) (h : s.Inv) (hb : s.app.Bound) :
    s.iteration.1.Inv ∧ s.iteration.1.app.Bound := by
  have hi : Session.Inv { s.prompt with cin := (getline s.prompt.cin s.prompt.line).1,
                                        line := (getline s.prompt.cin s.prompt.line).2 } :=
    ⟨WF_cout _ _ h.1, h.2⟩
  exact ⟨Inv_dispatch _ hi, Bound_dispatch _ hi.1 hb⟩

theorem Inv_Bound_iterate (n : Nat) (s : Session) (h : s.Inv) (hb : s.app.Bound) :
    (s.iterate n).Inv ∧ (s.iterate n).app.Bound := by
  induction n generalizing s with
  | zero => exact ⟨h, hb⟩
  | succ n ih =>
    have h1 := Inv_Bound_iteration s h hb
    simp only [Session.iterate]
    split
    · exact h1
    · exact ih _ h1.1 h1.2

theorem Inv_Bound_processLines (ls : List String) (s : Session) (h : s.Inv) (hb : s.app.Bound) :
    (s.processLines ls).1.Inv ∧ (s.processLines ls).1.app.Bound := by
  induction ls generalizing s with
  | nil => exact ⟨h, hb⟩
  | cons l ls ih =>
    have hi : Session.Inv { s.prompt with line := l } := ⟨WF_cout _ _ h.1, h.2⟩
    have h1 : (s.processLine l).1.Inv ∧ (s.processLine l).1.app.Bound :=
      ⟨Inv_dispatch _ hi, Bound_dispatch _ hi.1 hb⟩
    simp only [Session.processLines]
    split
    · exact h1
    · exact ih _ h1.1 h1.2

theorem Bound_enter (cin : IStream) : (Session.enter cin).app.Bound := by
  intro c hc
  simp [Session.enter, Session.init, SmartHomeCLI.printWelcome] at hc

/-- What well-formedness and the binding of the history say about a session object. -/
theorem bound_spelled_out (a : SmartHomeCLI) (hwf : a.WF) (hb : a.Bound) :
    (∀ e ∈ a.manager.devices, ∃ d, a.heap[e.2]? = some d ∧ d.getName = e.1 ∧
      a.manager.getDevice e.1 = some e.2) ∧
    (∀ c ∈ a.invoker.history, ∃ d, a.heap[c.device]? = some d ∧
      a.manager.getDevice d.getName = some c.device ∧
      (d.getName, c.device) ∈ a.manager.devices) := by
  constructor
  · intro e he
    have := (hwf.entries e he).2
    simp only [Option.map_eq_some'] at this
    obtain ⟨d, hd, hn⟩ := this
    exact ⟨d, hd, hn, mem_find hwf.sorted he⟩
  · intro c hc
    obtain ⟨d, hd, hf⟩ := hb c hc
    exact ⟨d, hd, hf, find_mem hf⟩

/-- C20: in every state a new session reaches, whether after any number of iterations
of the loop on any input stream or after any list of lines handed to it one by one:
every registry entry points to a device whose `getName()` is the entry's key, and the
lookup of that key returns it; every action in the history is bound to a live device
that the registry returns for the device's own name, so the device an `undo` acts on is
an entry of the registry that `status` lists. -/
theorem history_bound_to_registered_devices (cin : IStream) (n : Nat) (lines : List String) :
    ((∀ e ∈ ((Session.enter cin).iterate n).app.manager.devices,
        ∃ d, ((Session.enter cin).iterate n).app.heap[e.2]? = some d ∧ d.getName = e.1 ∧
          ((Session.enter cin).iterate n).app.manager.getDevice e.1 = some e.2) ∧
      (∀ c ∈ ((Session.enter cin).iterate n).app.invoker.history,
        ∃ d, ((Session.enter cin).iterate n).app.heap[c.device]? = some d ∧
          ((Session.enter cin).iterate n).app.manager.getDevice d.getName = some c.device ∧
          (d.getName, c.device) ∈ ((Session.enter cin).iterate n).app.manager.devices)) ∧
    ((∀ e ∈ ((Session.enter cin).run lines).app.manager.devices,
        ∃ d, ((Session.enter cin).run lines).app.heap[e.2]? = some d ∧ d.getName = e.1 ∧
          ((Session.enter cin).run lines).app.manager.getDevice e.1 = some e.2) ∧
      (∀ c ∈ ((Session.enter cin).run lines).app.invoker.history,
        ∃ d, ((Session.enter cin).run lines).app.heap[c.device]? = some d ∧
          ((Session.enter cin).run lines).app.manager.getDevice d.getName = some c.device ∧
          (d.getName, c.device) ∈ ((Session.enter cin).run lines).app.manager.devices)) := by
  have h1 := Inv_Bound_iterate n (Session.enter cin) (Inv_enter cin) (Bound_enter cin)
  have h2 := Inv_Bound_processLines lines (Session.enter cin) (Inv_enter cin) (Bound_enter cin)
  exact ⟨bound_spelled_out _ h1.1.1 h1.2, bound_spelled_out _ h2.1.1 h2.2⟩

end SmartHome
